import Mathlib

/-
Verification of the RAG question-answering core of this repository
(citation validator, confidence scorer, chunker merge step, QA retry
orchestration, multi-document retrieval isolation).

Strings are modelled as lists of characters (`Str`).  Python regular
expression operations used by the code are hand-compiled to deterministic
matchers (each regex in the source is simple enough that the greedy
left-to-right strategy coincides with the backtracking one; this is argued
case by case at each matcher).  Floating point arithmetic of the
confidence scorer is idealised as exact rational arithmetic, with the
final two-decimal rounding modelled as round-half-to-even, which is the
documented behaviour of round(x, 2) on exact decimal values.
External effects (LLM generation calls, database queries, the vector
index, embedding providers) are modelled as oracle parameters.
-/

set_option maxRecDepth 10000

abbrev Str := List Char

/-- Whitespace as in the Python default for str.split and str.strip
(the ASCII fragment). -/
def pyIsSpace (c : Char) : Bool :=
  c = ' ' || c = '\t' || c = '\n' || c = '\r' || c = '\x0b' || c = '\x0c'

/-- Regex class backslash-s (ASCII fragment), same character set. -/
def reSpace (c : Char) : Bool := pyIsSpace c

/-- Regex word character backslash-w (ASCII fragment). -/
def isWordChar (c : Char) : Bool := c.isAlphanum || c = '_'

def toLowerStr (s : Str) : Str := s.map Char.toLower

/-- Test whether pat occurs at the very start of s. -/
def startsWithStr : Str → Str → Bool
  | [], _ => true
  | _ :: _, [] => false
  | p :: ps, c :: cs => (p = c) && startsWithStr ps cs

/-- Python substring containment: pat in s. -/
def containsStr (pat : Str) : Str → Bool
  | [] => startsWithStr pat []
  | c :: rest => startsWithStr pat (c :: rest) || containsStr pat rest

/-- Python str.strip with the default whitespace set. -/
def pyStrip (s : Str) : Str :=
  ((s.dropWhile pyIsSpace).reverse.dropWhile pyIsSpace).reverse

/-- Helper for whitespace-run splitting, accumulating the current word
in reverse. -/
def splitWsAux : Str → Str → List Str
  | acc, [] => if acc.isEmpty then [] else [acc.reverse]
  | acc, c :: rest =>
    if pyIsSpace c then
      if acc.isEmpty then splitWsAux [] rest else acc.reverse :: splitWsAux [] rest
    else splitWsAux (c :: acc) rest

/-- Python str.split() with no argument: split on whitespace runs,
discarding empty fragments. -/
def pySplitWs (s : Str) : List Str := splitWsAux [] s

/-- Index of the first occurrence of sep in s. -/
def findSubIdx (sep : Str) : Str → Option ℕ
  | [] => none
  | c :: rest =>
    if startsWithStr sep (c :: rest) then some 0
    else (findSubIdx sep rest).map (· + 1)

/-- Fuelled worker for pySplit. -/
def pySplitF (sep : Str) : ℕ → Str → List Str
  | 0, s => [s]
  | fuel + 1, s =>
    match findSubIdx sep s with
    | none => [s]
    | some i => s.take i :: pySplitF sep fuel (s.drop (i + sep.length))

/-- Python str.split(sep) for a non-empty separator. -/
def pySplit (sep : Str) (s : Str) : List Str := pySplitF sep (s.length + 1) s

/-- Python range(a, b) as a list. -/
def pythonRange (a b : ℕ) : List ℕ := List.range' a (b - a)

/-- Insertion into a Python set modelled as a duplicate-free list in
insertion order. -/
def setInsert (l : List ℕ) (x : ℕ) : List ℕ := if x ∈ l then l else l ++ [x]

def insNat (x : ℕ) : List ℕ → List ℕ
  | [] => [x]
  | y :: ys => if x ≤ y then x :: y :: ys else y :: insNat x ys

/-- Ascending insertion sort, modelling Python sorted on a set of ints. -/
def sortNat : List ℕ → List ℕ
  | [] => []
  | x :: xs => insNat x (sortNat xs)

/-- Numeric value of a digit string. -/
def digitVal (s : Str) : ℕ := s.foldl (fun a c => 10 * a + (c.toNat - 48)) 0

def numRepr (n : ℕ) : Str := (Nat.repr n).data

/-- Join a list of strings with a separator, as Python sep.join. -/
def strJoin (sep : Str) : List Str → Str
  | [] => []
  | [x] => x
  | x :: y :: rest => x ++ sep ++ strJoin sep (y :: rest)

/-- Python repr of a list of ints, as interpolated into error messages. -/
def listRepr (l : List ℕ) : Str :=
  "[".data ++ strJoin ", ".data (l.map numRepr) ++ "]".data

/-- Match a literal case-insensitively at the start of the input (the
pattern is given in lowercase); returns the remainder. -/
def stripCI : Str → Str → Option Str
  | [], s => some s
  | _ :: _, [] => none
  | p :: ps, c :: cs => if c.toLower = p then stripCI ps cs else none

/-- Match a literal case-sensitively at the start of the input; returns
the remainder. -/
def stripLit : Str → Str → Option Str
  | [], s => some s
  | _ :: _, [] => none
  | p :: ps, c :: cs => if c = p then stripLit ps cs else none

/-- Matcher for CITATION_PATTERN, the compiled regex
bracket Pages? ws+ (digits) (ws* hyphen ws* (digits))? bracket with the
IGNORECASE flag, anchored at the start of the input.  Returns the match
length, the first page group and the second page group (defaulted to the
first when absent), exactly as extract_citations reads the groups.
Greedy matching is deterministic here: digits cannot be consumed by the
following hyphen or closing bracket, and whitespace cannot be consumed by
digits, so no backtracking into a character class ever succeeds; the only
regex backtracking point is abandoning the optional second group, which
the matcher mirrors explicitly. -/
def matchCitation (s : Str) : Option (ℕ × ℕ × ℕ) :=
  match s with
  | [] => none
  | c :: rest =>
    if c = '[' then
      match stripCI "page".data rest with
      | none => none
      | some r1 =>
        let r2 := match r1 with
                  | d :: ds => if d.toLower = 's' then ds else r1
                  | [] => r1
        let ws := r2.takeWhile reSpace
        let r3 := r2.dropWhile reSpace
        if ws.isEmpty then none
        else
          let d1 := r3.takeWhile Char.isDigit
          let r4 := r3.dropWhile Char.isDigit
          if d1.isEmpty then none
          else
            let optPart : Option (Str × Str) :=
              match r4.dropWhile reSpace with
              | '-' :: r6 =>
                let r7 := r6.dropWhile reSpace
                let d2 := r7.takeWhile Char.isDigit
                if d2.isEmpty then none else some (d2, r7.dropWhile Char.isDigit)
              | _ => none
            match optPart with
            | some (d2, r8) =>
              match r8 with
              | ']' :: tail => some (s.length - tail.length, digitVal d1, digitVal d2)
              | _ =>
                match r4 with
                | ']' :: tail => some (s.length - tail.length, digitVal d1, digitVal d1)
                | _ => none
            | none =>
              match r4 with
              | ']' :: tail => some (s.length - tail.length, digitVal d1, digitVal d1)
              | _ => none
    else none

/-- Fuelled scan collecting all non-overlapping matches left to right,
as re.finditer.  A failed position advances by one character, a match
advances past its end. -/
def findAllF {α : Type} (m : Str → Option (ℕ × α)) : ℕ → Str → List α
  | 0, _ => []
  | _ + 1, [] => []
  | fuel + 1, c :: rest =>
    match m (c :: rest) with
    | some (len, a) => a :: findAllF m fuel ((c :: rest).drop (max len 1))
    | none => findAllF m fuel rest

def findAll {α : Type} (m : Str → Option (ℕ × α)) (s : Str) : List α :=
  findAllF m s.length s

/-- Fuelled scan-and-replace, as re.sub: the replacement is emitted and
scanning resumes after the matched segment of the original string. -/
def subAllF (m : Str → Option (ℕ × Str)) : ℕ → Str → Str
  | 0, s => s
  | _ + 1, [] => []
  | fuel + 1, c :: rest =>
    match m (c :: rest) with
    | some (len, repl) => repl ++ subAllF m fuel ((c :: rest).drop (max len 1))
    | none => c :: subAllF m fuel rest

def subAll (m : Str → Option (ℕ × Str)) (s : Str) : Str := subAllF m s.length s

/-- Chunk metadata as carried through prompting and citation checking
(services/prompt_builder.py, class ChunkContext).  UUIDs are modelled as
naturals. -/
structure ChunkContext where
  chunk_id : ℕ
  document_id : ℕ
  content : Str
  page_start : ℕ
  page_end : ℕ
deriving DecidableEq, Repr

/-- Result of citation validation
(services/citation_validator.py, class ValidationResult). -/
structure ValidationResult where
  valid : Bool
  answer : Str
  cited_pages : List ℕ
  invalid_pages : List ℕ
  error : Option Str := none
deriving DecidableEq, Repr

/-- Matcher wrapper exposing the two page groups of a citation match. -/
def citeExtractMatcher (s : Str) : Option (ℕ × (ℕ × ℕ)) :=
  (matchCitation s).map (fun t => (t.1, t.2))

/-- All page citations of the answer
(citation_validator.extract_citations). -/
def extract_citations (answer : Str) : List (ℕ × ℕ) :=
  findAll citeExtractMatcher answer

/-- All valid page numbers from retrieved chunks
(citation_validator.get_valid_page_range); the Python set is modelled as
a duplicate-free list. -/
def get_valid_page_range (chunks : List ChunkContext) : List ℕ :=
  chunks.foldl
    (fun acc ch => (pythonRange ch.page_start (ch.page_end + 1)).foldl setInsert acc) []

def refusalPhrases : List Str :=
  ["cannot find this information".data,
   "not present in the context".data,
   "not found in the provided".data,
   "no information about".data,
   "not mentioned in".data,
   "does not contain".data,
   "no relevant information".data]

/-- Refusal detection (citation_validator.is_refusal_answer). -/
def is_refusal_answer (answer : Str) : Bool :=
  refusalPhrases.any (fun ph => containsStr ph (toLowerStr answer))

/-- Decision of remove_invalid_citations for one parsed citation: it is
kept iff every page of range(page_start, page_end + 1) is valid. -/
def citationKept (valid : List ℕ) (a b : ℕ) : Bool :=
  (pythonRange a (b + 1)).all (fun p => decide (p ∈ valid))

/-- Substitution function of remove_invalid_citations: a kept match is
replaced by its own text (group zero), an invalid one by the empty
string. -/
def removeMatcher (valid : List ℕ) (s : Str) : Option (ℕ × Str) :=
  (matchCitation s).map
    (fun t => (t.1, if citationKept valid t.2.1 t.2.2 then s.take t.1 else []))

/-- Removal of citations referencing invalid pages
(citation_validator.remove_invalid_citations). -/
def remove_invalid_citations (answer : Str) (valid : List ℕ) : Str :=
  subAll (removeMatcher valid) answer

/-- Matcher for the strict case-sensitive citation shape
bracket Pages? ws+ digits (ws* hyphen ws* digits)? bracket used by the
formatting-cleanup regexes (which are compiled without IGNORECASE);
returns the match length only. -/
def matchCiteCS (s : Str) : Option ℕ :=
  match s with
  | [] => none
  | c :: rest =>
    if c = '[' then
      match stripLit "Page".data rest with
      | none => none
      | some r1 =>
        let r2 := match r1 with
                  | 's' :: ds => ds
                  | _ => r1
        let ws := r2.takeWhile reSpace
        let r3 := r2.dropWhile reSpace
        if ws.isEmpty then none
        else
          let d1 := r3.takeWhile Char.isDigit
          let r4 := r3.dropWhile Char.isDigit
          if d1.isEmpty then none
          else
            let optPart : Option Str :=
              match r4.dropWhile reSpace with
              | '-' :: r6 =>
                let r7 := r6.dropWhile reSpace
                let d2 := r7.takeWhile Char.isDigit
                if d2.isEmpty then none else some (r7.dropWhile Char.isDigit)
              | _ => none
            match optPart with
            | some r8 =>
              match r8 with
              | ']' :: tail => some (s.length - tail.length)
              | _ =>
                match r4 with
                | ']' :: tail => some (s.length - tail.length)
                | _ => none
            | none =>
              match r4 with
              | ']' :: tail => some (s.length - tail.length)
              | _ => none
    else none

/-- Matcher for the loose case-sensitive citation shape
bracket Pages? ws+ nonbracket+ bracket used by the punctuation-moving
regexes.  The regex piece ws+ nonbracket+ matches a segment of length at
least two that starts with whitespace and contains no closing bracket
(backtracking lets the nonbracket class absorb trailing whitespace), so
the matcher checks exactly that. -/
def matchCiteLoose (s : Str) : Option ℕ :=
  match s with
  | [] => none
  | c :: rest =>
    if c = '[' then
      match stripLit "Page".data rest with
      | none => none
      | some r1 =>
        let r2 := match r1 with
                  | 's' :: ds => ds
                  | _ => r1
        let body := r2.takeWhile (fun d => !(d = ']'))
        let r3 := r2.dropWhile (fun d => !(d = ']'))
        match body with
        | b1 :: _ :: _ =>
          if reSpace b1 then
            match r3 with
            | ']' :: tail => some (s.length - tail.length)
            | _ => none
          else none
        | _ => none
    else none

def isPunct (c : Char) : Bool := c = '.' || c = '!' || c = '?'

/-- Cleanup regex 1 (citation ws* questionmark ws* citation, replaced by
the first citation and the questionmark). -/
def matchClean1 (s : Str) : Option (ℕ × Str) :=
  match matchCiteCS s with
  | none => none
  | some l1 =>
    match (s.drop l1).dropWhile reSpace with
    | '?' :: r2 =>
      let r3 := r2.dropWhile reSpace
      match matchCiteCS r3 with
      | some l2 => some (s.length - (r3.length - l2), s.take l1 ++ ['?'])
      | none => none
    | _ => none

/-- Cleanup regex 2 (citation ws* period ws* citation, replaced by the
first citation and the period). -/
def matchClean2 (s : Str) : Option (ℕ × Str) :=
  match matchCiteCS s with
  | none => none
  | some l1 =>
    match (s.drop l1).dropWhile reSpace with
    | '.' :: r2 =>
      let r3 := r2.dropWhile reSpace
      match matchCiteCS r3 with
      | some l2 => some (s.length - (r3.length - l2), s.take l1 ++ ['.'])
      | none => none
    | _ => none

/-- Matcher for the single-page shape bracket Page ws+ (digits) bracket;
returns length and the digit text group. -/
def matchPageSingle (s : Str) : Option (ℕ × Str) :=
  match s with
  | [] => none
  | c :: rest =>
    if c = '[' then
      match stripLit "Page".data rest with
      | none => none
      | some r1 =>
        let ws := r1.takeWhile reSpace
        let r2 := r1.dropWhile reSpace
        if ws.isEmpty then none
        else
          let d := r2.takeWhile Char.isDigit
          let r3 := r2.dropWhile Char.isDigit
          if d.isEmpty then none
          else
            match r3 with
            | ']' :: tail => some (s.length - tail.length, d)
            | _ => none
    else none

/-- Cleanup regex 3 (two consecutive single-page citations merged into a
range, reusing the digit texts of both groups). -/
def matchClean3 (s : Str) : Option (ℕ × Str) :=
  match matchPageSingle s with
  | none => none
  | some (l1, d1) =>
    let rest := (s.drop l1).dropWhile reSpace
    match matchPageSingle rest with
    | some (l2, d2) =>
      some (s.length - (rest.length - l2),
            "[Pages ".data ++ d1 ++ ['-'] ++ d2 ++ "]".data)
    | none => none

/-- Cleanup regex 4 (citation ws* citation collapsed to the first). -/
def matchClean4 (s : Str) : Option (ℕ × Str) :=
  match matchCiteCS s with
  | none => none
  | some l1 =>
    let rest := (s.drop l1).dropWhile reSpace
    match matchCiteCS rest with
    | some l2 => some (s.length - (rest.length - l2), s.take l1)
    | none => none

/-- Cleanup regex 5 (ws* citation ws* punctuation rewritten to
punctuation space citation). -/
def matchClean5 (s : Str) : Option (ℕ × Str) :=
  let r0 := s.dropWhile reSpace
  match matchCiteLoose r0 with
  | none => none
  | some l1 =>
    match (r0.drop l1).dropWhile reSpace with
    | p :: tail =>
      if isPunct p then some (s.length - tail.length, p :: ' ' :: r0.take l1)
      else none
    | [] => none

/-- Cleanup regex 6 (punctuation ws+ citation ws* punctuation rewritten
to the first punctuation, a space and the citation). -/
def matchClean6 (s : Str) : Option (ℕ × Str) :=
  match s with
  | [] => none
  | p1 :: rest =>
    if isPunct p1 then
      let ws := rest.takeWhile reSpace
      let r1 := rest.dropWhile reSpace
      if ws.isEmpty then none
      else
        match matchCiteLoose r1 with
        | none => none
        | some l1 =>
          match (r1.drop l1).dropWhile reSpace with
          | p2 :: tail =>
            if isPunct p2 then some (s.length - tail.length, p1 :: ' ' :: r1.take l1)
            else none
          | [] => none
    else none

/-- Cleanup regex 7 (a run of two or more literal spaces collapsed to
one space). -/
def matchClean7 (s : Str) : Option (ℕ × Str) :=
  match s with
  | ' ' :: ' ' :: _ => some ((s.takeWhile (fun c => c = ' ')).length, [' '])
  | _ => none

/-- Formatting cleanup (citation_validator.clean_citation_formatting):
the seven substitutions in source order followed by str.strip. -/
def clean_citation_formatting (answer : Str) : Str :=
  pyStrip (subAll matchClean7 (subAll matchClean6 (subAll matchClean5
    (subAll matchClean4 (subAll matchClean3 (subAll matchClean2
      (subAll matchClean1 answer)))))))

/-- Existence of a citation match, as CITATION_PATTERN.search. -/
def hasCitation (s : Str) : Bool := !(extract_citations s).isEmpty

/-- Increment of a page counter dictionary kept in insertion order. -/
def bumpCount (acc : List (ℕ × ℕ)) (p : ℕ) : List (ℕ × ℕ) :=
  if acc.any (fun e => e.1 = p) then
    acc.map (fun e => if e.1 = p then (e.1, e.2 + 1) else e)
  else acc ++ [(p, 1)]

/-- Page frequency over the chunk page ranges
(ensure_sentence_citations, page_counts). -/
def pageCounts (chunks : List ChunkContext) : List (ℕ × ℕ) :=
  chunks.foldl
    (fun acc ch => (pythonRange ch.page_start (ch.page_end + 1)).foldl bumpCount acc) []

/-- Python max over dict keys with a count key function: the first key of
maximal count in insertion order. -/
def argmaxCount : List (ℕ × ℕ) → ℕ
  | [] => 0
  | e :: rest => (rest.foldl (fun best f => if best.2 < f.2 then f else best) e).1

/-- Injection of a default citation into substantial uncited paragraphs
(citation_validator.ensure_sentence_citations). -/
def ensure_sentence_citations (answer : Str) (chunks : List ChunkContext) : Str :=
  if chunks.isEmpty then answer
  else
    let counts := pageCounts chunks
    if counts.isEmpty then answer
    else
      let primary := argmaxCount counts
      let processed := (pySplit "\n\n".data answer).filterMap (fun para0 =>
        let para := pyStrip para0
        if para.isEmpty then none
        else if is_refusal_answer para || hasCitation para then some para
        else if 10 < (pySplitWs para).length then
          some (match para.getLast? with
            | some c =>
              if isPunct c then
                para.dropLast ++ " [Page ".data ++ numRepr primary ++ "]".data ++ [c]
              else para ++ " [Page ".data ++ numRepr primary ++ "].".data
            | none => para)
        else some para)
      strJoin "\n\n".data processed

/-- Final tally of the re-extracted citations: pages inside the valid
set accumulate into the cited set, the others into the invalid list. -/
def collectPages (valid : List ℕ) (cits : List (ℕ × ℕ)) : List ℕ × List ℕ :=
  cits.foldl (fun acc c =>
    (pythonRange c.1 (c.2 + 1)).foldl (fun acc2 p =>
      if p ∈ valid then (setInsert acc2.1 p, acc2.2) else (acc2.1, acc2.2 ++ [p])) acc)
    ([], [])

/-- Citation validation and repair
(citation_validator.validate_and_fix_citations). -/
def validate_and_fix_citations (answer : Str) (chunks : List ChunkContext) :
    ValidationResult :=
  if is_refusal_answer answer then
    { valid := true, answer := answer, cited_pages := [], invalid_pages := [] }
  else
    let valid_pages := get_valid_page_range chunks
    let fixed1 := remove_invalid_citations answer valid_pages
    let fixed2 := clean_citation_formatting fixed1
    let fixed3 := if hasCitation fixed2 then fixed2
                  else ensure_sentence_citations fixed2 chunks
    let collected := collectPages valid_pages (extract_citations fixed3)
    if !collected.2.isEmpty then
      { valid := false, answer := fixed3, cited_pages := sortNat collected.1,
        invalid_pages := collected.2,
        error := some ("Invalid citations remain: ".data ++ listRepr collected.2) }
    else
      { valid := true, answer := fixed3, cited_pages := sortNat collected.1,
        invalid_pages := [] }

/-- Inputs for confidence calculation
(services/confidence_scorer.py, class ConfidenceInputs).  Scores are
idealised as rationals, counts as naturals. -/
structure ConfidenceInputs where
  retrieval_scores : List ℚ
  num_chunks_retrieved : ℕ
  num_chunks_cited : ℕ
  num_pages_cited : ℕ
  num_documents : ℕ
  citation_valid : Bool
  required_regeneration : Bool
deriving DecidableEq, Repr

/-- Round-half-to-even to an integer, the tie-breaking rule of Python
round on exact decimal values. -/
def halfEvenRound (y : ℚ) : ℤ :=
  if y - ⌊y⌋ < 1/2 then ⌊y⌋
  else if 1/2 < y - ⌊y⌋ then ⌊y⌋ + 1
  else if ⌊y⌋ % 2 = 0 then ⌊y⌋ else ⌊y⌋ + 1

/-- Python round(x, 2) idealised over the rationals. -/
def roundTo2 (x : ℚ) : ℚ := (halfEvenRound (100 * x) : ℚ) / 100

/-- Base score from retrieval relevance, weight up to two fifths
(confidence_scorer.compute_confidence, relevance_score). -/
def relevanceScore (i : ConfidenceInputs) : ℚ :=
  if i.retrieval_scores.isEmpty then 0
  else
    let clamped := i.retrieval_scores.map (fun s => max 0 (min 1 s))
    let avg := clamped.sum / (clamped.length : ℚ)
    min avg (9/10) / (9/10) * (2/5)

/-- Citation coverage score, weight up to three tenths. -/
def coverageScore (i : ConfidenceInputs) : ℚ :=
  if 0 < i.num_chunks_retrieved then
    min ((i.num_chunks_cited : ℚ) / (i.num_chunks_retrieved : ℚ)) 1 * (3/10)
  else 0

/-- Stepped multi-source bonus from the number of pages cited. -/
def sourceScore (i : ConfidenceInputs) : ℚ :=
  if 3 ≤ i.num_pages_cited then 1/5
  else if 2 ≤ i.num_pages_cited then 3/20
  else if 1 ≤ i.num_pages_cited then 1/10
  else 0

/-- Multi-document handling bonus. -/
def docScore (i : ConfidenceInputs) : ℚ :=
  if 1 < i.num_documents ∧ i.num_documents ≤ i.num_chunks_cited then 1/10
  else if i.num_documents = 1 then 1/20
  else 0

/-- Regeneration penalty. -/
def penaltyOf (i : ConfidenceInputs) : ℚ :=
  if i.required_regeneration then 3/20 else 0

/-- Pre-clamp sum of the weighted terms minus the penalty
(compute_confidence, raw_score). -/
def rawScore (i : ConfidenceInputs) : ℚ :=
  relevanceScore i + coverageScore i + sourceScore i + docScore i - penaltyOf i

/-- Confidence score from retrieval and citation quality
(confidence_scorer.compute_confidence): zero on invalid citations,
otherwise the raw score clamped to the interval from zero to ninety-nine
hundredths and then rounded to two decimals as the final step. -/
def compute_confidence (i : ConfidenceInputs) : ℚ :=
  if !i.citation_valid then 0
  else roundTo2 (max 0 (min (99/100) (rawScore i)))

/-- Chunking parameters (services/chunker.py). -/
def TARGET_CHUNK_SIZE : ℕ := 650

def MIN_CHUNK_SIZE : ℕ := 500

def MAX_CHUNK_SIZE : ℕ := 800

def OVERLAP_SIZE : ℕ := 125

def MAX_RECURSION_DEPTH : ℕ := 10

/-- Text content with page number (chunker.PageText). -/
structure PageText where
  page_number : ℕ
  text : Str
deriving DecidableEq, Repr

/-- Token estimate: the floor of word_count times 1.3 plus
special_char_count times 0.5, where special characters are the
nonword nonspace ones (chunker.estimate_tokens). -/
def estimate_tokens (text : Str) : ℕ :=
  let words := (pySplitWs text).length
  let special := (text.filter (fun c => !(isWordChar c) && !(reSpace c))).length
  (13 * words + 5 * special) / 10

/-- Token to character conversion (chunker.tokens_to_chars). -/
def tokens_to_chars (tokens : ℕ) : ℕ := tokens * 4

/-- Forced fixed-window split with overlap, used once the recursion
limit is reached (chunker.fallback_split). -/
def fallbackSplit (text : Str) : List Str :=
  let chunk_chars := tokens_to_chars MAX_CHUNK_SIZE
  let step := chunk_chars - tokens_to_chars OVERLAP_SIZE
  let count := (text.length + step - 1) / step
  ((List.range count).map (fun k => (text.drop (k * step)).take chunk_chars)).filter
    (fun p => !p.isEmpty)

/-- Recursive splitting by an ordered separator list
(chunker.split_by_separators). -/
def split_by_separators (text : Str) (separators : List Str) (depth : ℕ) : List Str :=
  match separators with
  | [] =>
    if text.isEmpty then []
    else if MAX_CHUNK_SIZE < estimate_tokens text then fallbackSplit text
    else [text]
  | sep :: remaining =>
    if text.isEmpty then []
    else if MAX_RECURSION_DEPTH ≤ depth then
      if MAX_CHUNK_SIZE < estimate_tokens text then fallbackSplit text else [text]
    else
      let parts := pySplit sep text
      let n := parts.length
      (parts.enum.map (fun e =>
        if (pyStrip e.2).isEmpty then []
        else
          let part := if e.1 < n - 1 then e.2 ++ sep else e.2
          if estimate_tokens part ≤ MAX_CHUNK_SIZE ∨ remaining.isEmpty then
            if MAX_CHUNK_SIZE < estimate_tokens part ∧ remaining.isEmpty then
              fallbackSplit part
            else [part]
          else split_by_separators part remaining (depth + 1))).flatten

/-- Forward merge of small segments (chunker.merge_small_chunks): the
running segment absorbs the next one while its token estimate is below
min_size. -/
def mergeFold (min_size : ℕ) (segments : List Str) : List Str × Str :=
  segments.foldl (fun (acc : List Str × Str) segment =>
    if (pyStrip segment).isEmpty then acc
    else if acc.2.isEmpty then (acc.1, segment)
    else if estimate_tokens acc.2 < min_size then (acc.1, acc.2 ++ segment)
    else (acc.1 ++ [acc.2], segment)) ([], [])

def merge_small_chunks (segments : List Str) (min_size : ℕ) : List Str :=
  if (mergeFold min_size segments).2.isEmpty then (mergeFold min_size segments).1
  else (mergeFold min_size segments).1 ++ [(mergeFold min_size segments).2]

/-- Stable insertion of a page into a page list sorted by page number:
the new element goes before the first strictly greater key, so equal
keys keep their original order, as Python sorted. -/
def insPage (x : PageText) : List PageText → List PageText
  | [] => [x]
  | y :: ys => if y.page_number < x.page_number then y :: insPage x ys else x :: y :: ys

/-- Stable sort by page number, as sorted(pages, key page_number). -/
def sortPages : List PageText → List PageText
  | [] => []
  | x :: xs => insPage x (sortPages xs)

/-- Separator list of chunk_document, coarsest first. -/
def chunkSeparators : List Str :=
  ["\n\n".data, "\n".data, ". ".data, " ".data]

/-- Concatenated page text of chunk_document: each page text is appended
and a newline is added whenever the running text does not already end
with one. -/
def concatPages (pages : List PageText) : Str :=
  pages.foldl (fun full p =>
    let t := full ++ p.text
    if t.getLast? = some '\n' then t else t ++ ['\n']) []

/-- Merged segment list produced inside chunk_document
(services/chunker.py lines 240 to 245): pages are sorted by page number
and concatenated, the text is split recursively by the separator list,
and small segments are merged with threshold MIN_CHUNK_SIZE divided by
two.  Page offset tracking and the final overlap assembly do not affect
this list. -/
def chunk_document_segments (pages : List PageText) : List Str :=
  if pages.isEmpty then []
  else if (pyStrip (concatPages (sortPages pages))).isEmpty then []
  else merge_small_chunks
    (split_by_separators (concatPages (sortPages pages)) chunkSeparators 0)
    (MIN_CHUNK_SIZE / 2)

/-- Result of one LLM generation call (qa_engine.GenerationResult).
Generation is external network IO; the orchestration model receives the
per-attempt outcomes as an oracle indexed by attempt number. -/
structure GenerationResult where
  answer : Str
  model_used : Str
  success : Bool
  error : Option Str := none
deriving DecidableEq, Repr

/-- Final QA result with validation (qa_engine.QAResult). -/
structure QAResult where
  answer : Str
  sources : List ChunkContext
  cited_pages : List ℕ
  success : Bool
  error : Option Str := none
deriving DecidableEq, Repr

def MAX_RETRIES : ℕ := 2

/-- Rendering of an Option into an f-string, where Python prints None. -/
def pyOptionStr : Option Str → Str
  | none => "None".data
  | some s => s

/-- Source narrowing on acceptance (qa_engine.answer_question, cited
sources loop): chunks whose page range meets the cited pages are kept
with the page range narrowed to the cited intersection, content
preserved in full. -/
def narrowSources (chunks : List ChunkContext) (cited : List ℕ) : List ChunkContext :=
  if cited.isEmpty then []
  else chunks.filterMap (fun ch =>
    match (pythonRange ch.page_start (ch.page_end + 1)).filter
        (fun p => decide (p ∈ cited)) with
    | [] => none
    | h :: t => some { ch with page_start := h, page_end := (h :: t).getLastD h })

/-- Hard failure result after exhausting retries, interpolating the last
recorded error (qa_engine.answer_question, final return). -/
def qaFailResult (lastErr : Option Str) : QAResult :=
  { answer := [], sources := [], cited_pages := [], success := false,
    error := some ("Failed to generate valid answer: ".data ++ pyOptionStr lastErr) }

/-- Attempt loop of answer_question over the remaining attempt indices,
threading the last error.  The prompt messages only influence the
external generator, which the oracle summarises per attempt, so the
hint-appending step has no further observable effect here. -/
def qaLoop (chunks : List ChunkContext) (gen : ℕ → GenerationResult) :
    List ℕ → Option Str → QAResult
  | [], lastErr => qaFailResult lastErr
  | a :: rest, _ =>
    let g := gen a
    if g.success then
      let v := validate_and_fix_citations g.answer chunks
      if v.valid then
        { answer := v.answer, sources := narrowSources chunks v.cited_pages,
          cited_pages := v.cited_pages, success := true }
      else qaLoop chunks gen rest v.error
    else qaLoop chunks gen rest g.error

def qaEmptyRefusal : Str :=
  "I cannot find this information in the provided document.".data

/-- Generate and validate an answer (qa_engine.answer_question): an
immediate refusal success on empty chunks, otherwise up to
MAX_RETRIES + 1 generation attempts. -/
def answer_question (chunks : List ChunkContext) (gen : ℕ → GenerationResult) :
    QAResult :=
  if chunks.isEmpty then
    { answer := qaEmptyRefusal, sources := [], cited_pages := [], success := true }
  else qaLoop chunks gen (List.range (MAX_RETRIES + 1)) none

/-- Chunk context with document attribution
(multi_doc_qa.DocumentChunkContext). -/
structure DocumentChunkContext where
  chunk_id : ℕ
  document_id : ℕ
  content : Str
  page_start : ℕ
  page_end : ℕ
  document_name : Str := []
  is_figure : Bool := false
  figure_id : Option ℕ := none
deriving DecidableEq, Repr

def toChunkContext (c : DocumentChunkContext) : ChunkContext :=
  { chunk_id := c.chunk_id, document_id := c.document_id, content := c.content,
    page_start := c.page_start, page_end := c.page_end }

/-- Result of multi-document retrieval
(multi_doc_qa.MultiDocRetrievalResult); the Python dicts keep insertion
order and are modelled as association lists. -/
structure MultiDocRetrievalResult where
  chunks_by_doc : List (ℕ × List DocumentChunkContext)
  scores_by_doc : List (ℕ × List ℚ)
  doc_names : List (ℕ × Str)
deriving DecidableEq, Repr

/-- Result of multi-document QA (multi_doc_qa.MultiDocQAResult). -/
structure MultiDocQAResult where
  answer : Str
  sources : List DocumentChunkContext
  cited_pages : List ℕ
  confidence : ℚ
  success : Bool
  error : Option Str := none
  required_regeneration : Bool := false
deriving DecidableEq, Repr

/-- Result of one generation call of the multi-document path
(llm_client.generate_answer returns text, model, success, error). -/
structure LLMResult where
  text : Str
  model_used : Str
  success : Bool
  error : Option Str := none
deriving DecidableEq, Repr

/-- Lookup in an insertion-ordered dictionary. -/
def dictGet {α : Type} (d : List (ℕ × α)) (k : ℕ) : Option α :=
  (d.find? (fun e => e.1 = k)).map (fun e => e.2)

/-- Update or append in an insertion-ordered dictionary. -/
def dictSet {α : Type} (d : List (ℕ × α)) (k : ℕ) (v : α) : List (ℕ × α) :=
  if d.any (fun e => e.1 = k) then
    d.map (fun e => if e.1 = k then (k, v) else e)
  else d ++ [(k, v)]

def unknownName : Str := "Unknown".data

def pageRangeStr (a b : ℕ) : Str :=
  if a = b then numRepr a else numRepr a ++ "-".data ++ numRepr b

/-- Context assembly with document boundaries
(multi_doc_qa.build_multi_doc_context): returns the context string, the
flattened chunk list and the valid page set. -/
def build_multi_doc_context (r : MultiDocRetrievalResult) :
    Str × List DocumentChunkContext × List ℕ :=
  let folded := r.chunks_by_doc.foldl
    (fun (acc : List Str × List DocumentChunkContext × List ℕ) entry =>
      let doc_name := (dictGet r.doc_names entry.1).getD unknownName
      entry.2.foldl (fun acc2 ch =>
        (acc2.1 ++ ["[Document: ".data ++ doc_name ++ " | Pages ".data ++
            pageRangeStr ch.page_start ch.page_end ++ "]\n".data ++ ch.content],
         acc2.2.1 ++ [ch],
         (pythonRange ch.page_start (ch.page_end + 1)).foldl setInsert acc2.2.2)) acc)
    ([], [], [])
  (strJoin "\n\n".data folded.1, folded.2.1, folded.2.2)

def totalChunks (r : MultiDocRetrievalResult) : ℕ :=
  (r.chunks_by_doc.map (fun e => e.2.length)).sum

/-- Fixed failure result of the multi-document path after exhausting
retries (multi_doc_qa.generate_multi_doc_answer, final return). -/
def mdFailResult : MultiDocQAResult :=
  { answer := [], sources := [], cited_pages := [], confidence := 0,
    success := false, error := some "Failed to generate valid answer after retries".data,
    required_regeneration := true }

/-- Attempt loop of generate_multi_doc_answer, threading the
required_regeneration flag that validation failures set. -/
def mdLoop (r : MultiDocRetrievalResult) (all_chunks : List DocumentChunkContext)
    (all_scores : List ℚ) (llm : ℕ → LLMResult) :
    List ℕ → Bool → MultiDocQAResult
  | [], _ => mdFailResult
  | a :: rest, regen =>
    let g := llm a
    if !g.success then mdLoop r all_chunks all_scores llm rest regen
    else
      let v := validate_and_fix_citations g.text (all_chunks.map toChunkContext)
      if v.valid then
        let cited := all_chunks.filter (fun c =>
          (pythonRange c.page_start (c.page_end + 1)).any
            (fun p => decide (p ∈ v.cited_pages)))
        let conf := compute_confidence
          { retrieval_scores := all_scores, num_chunks_retrieved := totalChunks r,
            num_chunks_cited := cited.length, num_pages_cited := v.cited_pages.length,
            num_documents := r.doc_names.length, citation_valid := true,
            required_regeneration := regen }
        { answer := v.answer, sources := cited, cited_pages := v.cited_pages,
          confidence := conf, success := true, required_regeneration := regen }
      else mdLoop r all_chunks all_scores llm rest true

def mdEmptyRefusal : Str :=
  "I cannot find relevant information in the provided documents.".data

/-- Multi-document answer generation
(multi_doc_qa.generate_multi_doc_answer): refusal success when no chunks
were retrieved at all, otherwise up to three attempts; prompt text only
feeds the external generator oracle. -/
def generate_multi_doc_answer (r : MultiDocRetrievalResult) (llm : ℕ → LLMResult) :
    MultiDocQAResult :=
  if totalChunks r = 0 then
    { answer := mdEmptyRefusal, sources := [], cited_pages := [], confidence := 0,
      success := true }
  else
    let ctx := build_multi_doc_context r
    let all_scores := r.scores_by_doc.foldl (fun acc e => acc ++ e.2) []
    mdLoop r ctx.2.1 all_scores llm (List.range 3) false

/-- Boundary-checked literal occurrence test at the head of the input:
the literal must match, the previous character (if any) must not be a
word character (the patterns all open with a word boundary and a word
character), and when rightB is set the character following the match (if
any) must not be a word character (for patterns closing with a word
boundary after a word character). -/
def hitAt (lit : Str) (rightB : Bool) (prev : Option Char) (s : Str) : Bool :=
  startsWithStr lit s
  && (match prev with
      | none => true
      | some c => !(isWordChar c))
  && (!rightB || (match s.drop lit.length with
      | [] => true
      | c :: _ => !(isWordChar c)))

/-- Scan of re.search for a boundary-anchored literal, tracking the
previous character. -/
def searchLitB (lit : Str) (rightB : Bool) (prev : Option Char) : Str → Bool
  | [] => false
  | c :: rest => hitAt lit rightB prev (c :: rest) || searchLitB lit rightB (some c) rest

def reSearchWord (lit : Str) (rightB : Bool) (s : Str) : Bool :=
  searchLitB lit rightB none s

def imageExclusions : List Str :=
  ["figure out".data, "figure it".data, "figures out".data]

def imagePhrasesOpen : List Str :=
  ["show image".data, "show figure".data, "show picture".data, "show visual".data]

def imagePhrasesClosed : List Str :=
  ["what does it depict".data, "visualize this".data, "does this image".data]

def imageKeywords : List Str :=
  ["image".data, "images".data, "picture".data, "pictures".data, "figure".data,
   "figures".data, "photo".data, "photos".data, "diagram".data, "chart".data,
   "visual".data, "visuals".data]

/-- Heuristic image-question classifier
(multi_doc_qa.retrieve_from_documents, is_likely_image_question):
exclusion alternation first, then the phrase patterns (some anchored only
on the left), then the whole-word keyword alternation, all on the
lowercased question. -/
def is_likely_image_question (q : Str) : Bool :=
  let ql := toLowerStr q
  if imageExclusions.any (fun p => reSearchWord p true ql) then false
  else if (imagePhrasesOpen.any (fun p => reSearchWord p false ql)) ||
          (imagePhrasesClosed.any (fun p => reSearchWord p true ql)) then true
  else imageKeywords.any (fun p => reSearchWord p true ql)

/-- Row of the document_chunks table (models.DocumentChunk, the fields
read by multi_doc_qa). -/
structure ChunkRec where
  id : ℕ
  document_id : ℕ
  content : Str
  page_start : ℕ
  page_end : ℕ
deriving DecidableEq, Repr

/-- Row of the document_figures table (models.DocumentFigure, the fields
read by multi_doc_qa). -/
structure FigureRec where
  id : ℕ
  document_id : ℕ
  page_number : ℕ
  figure_type : Str
  description : Str
deriving DecidableEq, Repr

/-- External collaborators of retrieve_from_documents: the database
tables, the per-document vector index query (which may raise), the query
and figure embedding calls (which may fail), the floating point cosine
ratio dot over norm product (abstracted as an oracle, applied only under
the positivity guards computed exactly), and the uuid4 generator for
synthetic figure chunk identifiers (indexed by figure position). -/
structure RetrieveEnv where
  dbDocs : List (ℕ × Str)
  search : ℕ → Except Str (List (ℕ × ℚ × ℕ))
  dbChunks : ℕ → Option ChunkRec
  figures : List FigureRec
  queryEmb : Except Str (List ℚ)
  figEmb : Str → Option (List ℚ)
  cosine : List ℚ → List ℚ → ℚ
  freshId : ℕ → ℕ

def FIGURE_DEFAULT_SCORE : ℚ := 7/10

/-- Synthetic chunk content template for a figure record. -/
def figureContent (f : FigureRec) : Str :=
  "[Figure on Page ".data ++ numRepr f.page_number ++ "] Type: ".data ++
    f.figure_type ++ ". ".data ++ f.description

/-- Document display names looked up per requested id with a default
(retrieve_from_documents, doc_names). -/
def docNamesOf (env : RetrieveEnv) (document_ids : List ℕ) : List (ℕ × Str) :=
  document_ids.foldl
    (fun acc d => dictSet acc d ((dictGet env.dbDocs d).getD unknownName)) []

/-- Per-document search outcomes in request order, each exception
captured as an error value (retrieve_from_documents, retrieval_tasks and
retrieve_single). -/
def retrievalResultsOf (env : RetrieveEnv) (document_ids : List ℕ) :
    List (ℕ × Except Str (List (ℕ × ℚ × ℕ))) :=
  document_ids.map (fun d => (d, env.search d))

/-- Successful results per document; failed documents are skipped
(retrieve_from_documents, results_map). -/
def resultsStep (acc : List (ℕ × List (ℕ × ℚ × ℕ)))
    (e : ℕ × Except Str (List (ℕ × ℚ × ℕ))) : List (ℕ × List (ℕ × ℚ × ℕ)) :=
  match e.2 with
  | .error _ => acc
  | .ok res => dictSet acc e.1 res

def resultsMapOf (rr : List (ℕ × Except Str (List (ℕ × ℚ × ℕ)))) :
    List (ℕ × List (ℕ × ℚ × ℕ)) :=
  rr.foldl resultsStep []

/-- Chunk ids of all successful results, in order
(retrieve_from_documents, all_chunk_ids). -/
def idsStep (acc : List ℕ) (e : ℕ × Except Str (List (ℕ × ℚ × ℕ))) : List ℕ :=
  match e.2 with
  | .error _ => acc
  | .ok res => acc ++ res.map (fun r => r.1)

def allChunkIdsOf (rr : List (ℕ × Except Str (List (ℕ × ℚ × ℕ)))) : List ℕ :=
  rr.foldl idsStep []

/-- Content lookup restricted to the fetched chunk ids
(retrieve_from_documents, chunk_map). -/
def chunkMapOf (env : RetrieveEnv) (all_chunk_ids : List ℕ) (cid : ℕ) :
    Option ChunkRec :=
  if cid ∈ all_chunk_ids then env.dbChunks cid else none

/-- The synthetic chunk built from one enumerated figure
(retrieve_from_documents, the figure_chunks loop body). -/
def synFigureOf (env : RetrieveEnv) (doc_names : List (ℕ × Str))
    (e : ℕ × FigureRec) : DocumentChunkContext :=
  { chunk_id := env.freshId e.1, document_id := e.2.document_id,
    content := figureContent e.2, page_start := e.2.page_number,
    page_end := e.2.page_number,
    document_name := (dictGet doc_names e.2.document_id).getD unknownName,
    is_figure := true, figure_id := some e.2.id }

/-- Synthetic figure chunks grouped by document in first-seen order
(retrieve_from_documents, figure_chunks), built only for image
questions. -/
def figureChunksOf (env : RetrieveEnv) (doc_names : List (ℕ × Str))
    (is_image : Bool) (document_ids : List ℕ) :
    List (ℕ × List DocumentChunkContext) :=
  if is_image then
    (env.figures.filter (fun f => f.document_id ∈ document_ids)).enum.foldl
      (fun acc e => dictSet acc e.2.document_id
        ((dictGet acc e.2.document_id).getD [] ++ [synFigureOf env doc_names e]))
      []
  else []

/-- Chunk list and score list of one document entry of results_map
(retrieve_from_documents, the loop filling chunks_by_doc and
scores_by_doc): results whose chunk content is missing are dropped. -/
def buildDocEntry (lookup : ℕ → Option ChunkRec) (doc_names : List (ℕ × Str))
    (e : ℕ × List (ℕ × ℚ × ℕ)) : List DocumentChunkContext × List ℚ :=
  e.2.foldl
    (fun (ls : List DocumentChunkContext × List ℚ) r =>
      match lookup r.1 with
      | some ch =>
        (ls.1 ++ [{ chunk_id := ch.id, document_id := ch.document_id,
                    content := ch.content, page_start := ch.page_start,
                    page_end := ch.page_end,
                    document_name := (dictGet doc_names e.1).getD unknownName }],
         ls.2 ++ [r.2.1])
      | none => ls) ([], [])

/-- Base chunk and score dictionaries from the successful search results
(retrieve_from_documents, before figure augmentation). -/
def baseDictsOf (lookup : ℕ → Option ChunkRec) (doc_names : List (ℕ × Str))
    (results_map : List (ℕ × List (ℕ × ℚ × ℕ))) :
    List (ℕ × List DocumentChunkContext) × List (ℕ × List ℚ) :=
  results_map.foldl
    (fun acc e =>
      (dictSet acc.1 e.1 (buildDocEntry lookup doc_names e).1,
       dictSet acc.2 e.1 (buildDocEntry lookup doc_names e).2))
    ([], [])

/-- Relevance scores of the figure chunks of one document, given the
optional question embedding (retrieve_from_documents, fig_scores): the
cosine oracle is consulted only under the exact positivity guards,
otherwise the default score is used. -/
def figScoresOf (env : RetrieveEnv) (qe : Option (List ℚ))
    (figs : List DocumentChunkContext) : List ℚ :=
  match qe with
  | none => figs.map (fun _ => FIGURE_DEFAULT_SCORE)
  | some qv =>
    let nq := (qv.map (fun a => a * a)).sum
    figs.map (fun fc =>
      match env.figEmb fc.content with
      | some fv =>
        if !fv.isEmpty && decide (0 < nq) then
          if 0 < (fv.map (fun a => a * a)).sum then
            max 0 (min 1 (env.cosine qv fv))
          else FIGURE_DEFAULT_SCORE
        else FIGURE_DEFAULT_SCORE
      | none => FIGURE_DEFAULT_SCORE)

/-- The question embedding when it was obtained, none when embedding
failed (retrieve_from_documents, query_embedding). -/
def queryEmbOpt (env : RetrieveEnv) : Option (List ℚ) :=
  match env.queryEmb with
  | .ok v => some v
  | .error _ => none

/-- Figure augmentation of the chunk and score dictionaries
(retrieve_from_documents, the loop over figure_chunks). -/
def mergeFigures (env : RetrieveEnv)
    (figure_chunks : List (ℕ × List DocumentChunkContext))
    (base : List (ℕ × List DocumentChunkContext) × List (ℕ × List ℚ)) :
    List (ℕ × List DocumentChunkContext) × List (ℕ × List ℚ) :=
  if figure_chunks.isEmpty then base
  else
    figure_chunks.foldl
      (fun acc e =>
        (dictSet acc.1 e.1 ((dictGet acc.1 e.1).getD [] ++ e.2),
         dictSet acc.2 e.1 ((dictGet acc.2 e.1).getD [] ++
           figScoresOf env (queryEmbOpt env) e.2)))
      base

/-- Multi-document retrieval (multi_doc_qa.retrieve_from_documents):
per-document index queries with isolated failure handling, chunk content
lookup, optional figure augmentation for image questions, and scoring of
figure chunks by embedding similarity with fallback to a default
score. -/
def retrieveDicts (env : RetrieveEnv) (question : Str) (document_ids : List ℕ) :
    List (ℕ × List DocumentChunkContext) × List (ℕ × List ℚ) :=
  mergeFigures env
    (figureChunksOf env (docNamesOf env document_ids)
      (is_likely_image_question question) document_ids)
    (baseDictsOf (chunkMapOf env (allChunkIdsOf (retrievalResultsOf env document_ids)))
      (docNamesOf env document_ids)
      (resultsMapOf (retrievalResultsOf env document_ids)))

def retrieve_from_documents (env : RetrieveEnv) (question : Str)
    (document_ids : List ℕ) : MultiDocRetrievalResult :=
  { chunks_by_doc := (retrieveDicts env question document_ids).1,
    scores_by_doc := (retrieveDicts env question document_ids).2,
    doc_names := docNamesOf env document_ids }

/-- Decidable test that a substitution pattern matches nowhere in s
(at no start position). -/
def noMatchB (m : Str → Option (ℕ × Str)) (s : Str) : Bool :=
  (List.range (s.length + 1)).all (fun i => (m (s.drop i)).isNone)

/-- Correct formatting in the sense of clean_citation_formatting: none
of its seven substitution patterns matches anywhere (no consecutive or
duplicate citations, no citation preceding sentence punctuation, no
double spaces) and stripping changes nothing (no leading or trailing
whitespace). -/
def wellFormattedB (s : Str) : Bool :=
  noMatchB matchClean1 s && noMatchB matchClean2 s && noMatchB matchClean3 s &&
  noMatchB matchClean4 s && noMatchB matchClean5 s && noMatchB matchClean6 s &&
  noMatchB matchClean7 s && decide (pyStrip s = s)

/-- Error of the final generation attempt: the validation error when the
generation call succeeded, the generation error otherwise.  This is the
value held in last_error when the retry loop of answer_question falls
through. -/
def lastAttemptError (chunks : List ChunkContext) (gen : ℕ → GenerationResult) :
    Option Str :=
  if (gen MAX_RETRIES).success then
    (validate_and_fix_citations (gen MAX_RETRIES).answer chunks).error
  else (gen MAX_RETRIES).error

/-- Association list restricted to keys different from B. -/
def filterOutKey {α : Type} (B : ℕ) (d : List (ℕ × α)) : List (ℕ × α) :=
  d.filter (fun e => !decide (e.1 = B))

/-- Example data: chunks covering pages one to three. -/
def exChunks13 : List ChunkContext := [⟨1, 1, "text".data, 1, 3⟩]

def exAnsCited : Str := "Fact blah. [Page 2]".data

/-- Example data: two chunks covering pages two and five only, so that
merging the citations of both into a range creates invalid pages. -/
def exChunks25 : List ChunkContext :=
  [⟨1, 1, "a".data, 2, 2⟩, ⟨2, 1, "b".data, 5, 5⟩]

def exChunks26 : List ChunkContext :=
  [⟨1, 1, "a".data, 2, 2⟩, ⟨2, 1, "b".data, 6, 6⟩]

def exAnsMerge25 : Str := "Fact [Page 2] [Page 5] end".data

def exAnsMerge26 : Str := "Fact [Page 2] [Page 6] end".data

/-- Generation oracle that always returns the same successful answer. -/
def constGen (ans : Str) : ℕ → GenerationResult :=
  fun _ => { answer := ans, model_used := "m".data, success := true }

def constLLM (ans : Str) : ℕ → LLMResult :=
  fun _ => { text := ans, model_used := "m".data, success := true }

/-- Multi-document retrieval result holding exChunks25 for one document. -/
def exRetrieval25 : MultiDocRetrievalResult :=
  { chunks_by_doc := [(1, [⟨1, 1, "a".data, 2, 2, "a.pdf".data, false, none⟩,
                           ⟨2, 1, "b".data, 5, 5, "a.pdf".data, false, none⟩])],
    scores_by_doc := [(1, [1/2, 1/2])],
    doc_names := [(1, "a.pdf".data)] }

def exRetrieval26 : MultiDocRetrievalResult :=
  { chunks_by_doc := [(1, [⟨1, 1, "a".data, 2, 2, "a.pdf".data, false, none⟩,
                           ⟨2, 1, "b".data, 6, 6, "a.pdf".data, false, none⟩])],
    scores_by_doc := [(1, [1/2, 1/2])],
    doc_names := [(1, "a.pdf".data)] }

/-- Confidence inputs whose penalised raw score falls below zero, so the
lower clamp absorbs part of the penalty. -/
def cInpClamped : ConfidenceInputs :=
  { retrieval_scores := [], num_chunks_retrieved := 0, num_chunks_cited := 0,
    num_pages_cited := 1, num_documents := 0, citation_valid := true,
    required_regeneration := false }

/-- Confidence inputs with an unclamped raw score of ninety-five
hundredths. -/
def cInpPenalty : ConfidenceInputs :=
  { retrieval_scores := [9/10], num_chunks_retrieved := 2, num_chunks_cited := 2,
    num_pages_cited := 3, num_documents := 1, citation_valid := true,
    required_regeneration := false }

/-- Confidence inputs with zero cited chunks but nonzero retrieval
scores and cited pages. -/
def cInpC7 : ConfidenceInputs :=
  { retrieval_scores := [1], num_chunks_retrieved := 4, num_chunks_cited := 0,
    num_pages_cited := 3, num_documents := 1, citation_valid := true,
    required_regeneration := false }

/-- Confidence inputs with zero cited chunks, zero cited pages and no
retrieval scores. -/
def cInpC7W : ConfidenceInputs :=
  { retrieval_scores := [], num_chunks_retrieved := 5, num_chunks_cited := 0,
    num_pages_cited := 0, num_documents := 1, citation_valid := true,
    required_regeneration := false }

/-- Example answer with no citation, eleven words, no refusal phrase and
clean formatting. -/
def exAnsNoCite : Str :=
  "The result of the experiment was positive overall in every trial".data

def exChunks23 : List ChunkContext := [⟨1, 1, "t".data, 2, 3⟩]

/-- Example well-formatted answer with one valid citation. -/
def exAnsWellFormed : Str := "The sky is blue. [Page 2]".data

/-- Example segment of one hundred ninety-three one-letter words, token
estimate two hundred fifty. -/
def exWords193 : Str := strJoin [' '] (List.replicate 193 ['a'])

/-- Example page text splitting into two such segments. -/
def exC5Pages : List PageText :=
  [⟨1, exWords193 ++ "\n\n".data ++ exWords193⟩]

/-- Example answer containing a refusal phrase and an out-of-range
citation. -/
def exAnsRefusal : Str :=
  "This is not mentioned in the document [Page 99].".data

def exChunks12 : List ChunkContext := [⟨1, 1, "t".data, 1, 2⟩]

/-- Example answer whose only citation is the reversed range five to
three. -/
def exAnsReversed : Str :=
  "The relevant values appear in the appendix [Pages 5-3]".data

/-- Retrieval environment where the search for document two raises and
document two has an extracted figure. -/
def envFig : RetrieveEnv :=
  { dbDocs := [(1, "a.pdf".data), (2, "b.pdf".data)],
    search := fun d => if d = 1 then .ok [(10, 1/2, 0)] else .error "boom".data,
    dbChunks := fun cid =>
      if cid = 10 then some ⟨10, 1, "hello".data, 1, 2⟩
      else if cid = 20 then some ⟨20, 2, "world".data, 3, 4⟩
      else none,
    figures := [⟨5, 2, 7, "chart".data, "a bar chart".data⟩],
    queryEmb := .error "no".data,
    figEmb := fun _ => none,
    cosine := fun _ _ => 0,
    freshId := fun i => 1000 + i }

/-- Same environment without figures, for the isolation witness. -/
def envIso : RetrieveEnv := { envFig with figures := [] }

/-- Repaired search function under which document two succeeds. -/
def searchFixed : ℕ → Except Str (List (ℕ × ℚ × ℕ)) :=
  fun d => if d = 2 then .ok [(20, 1/3, 0)] else envIso.search d

def exQuestionPlain : Str := "What is the revenue".data

def exQuestionImage : Str := "show image of results".data

theorem length_dropWhile_le (p : Char → Bool) (l : Str) :
    (l.dropWhile p).length ≤ l.length :=
  (List.dropWhile_sublist p).length_le

theorem stripCI_length_le : ∀ (pat s r : Str), stripCI pat s = some r → r.length ≤ s.length := by
  intro pat
  induction pat with
  | nil =>
    intro s r h
    simp [stripCI] at h
    simp [h]
  | cons p ps ih =>
    intro s r h
    cases s with
    | nil => simp [stripCI] at h
    | cons c cs =>
      simp only [stripCI] at h
      by_cases hc : c.toLower = p
      · rw [if_pos hc] at h
        have := ih cs r h
        simp
        omega
      · rw [if_neg hc] at h
        simp at h

theorem matchCitation_pos_le {s : Str} {len a b : ℕ}
    (h : matchCitation s = some (len, a, b)) : 1 ≤ len ∧ len ≤ s.length := by
  cases s with
  | nil => simp [matchCitation] at h
  | cons c rest =>
    simp only [matchCitation] at h
    by_cases hc : c = '['
    · rw [if_pos hc] at h
      cases hstrip : stripCI "page".data rest with
      | none => rw [hstrip] at h; simp at h
      | some r1 =>
        rw [hstrip] at h
        have hr1 : r1.length ≤ rest.length := stripCI_length_le _ _ _ hstrip
        simp only at h
        have hr2 : (match r1 with
            | d :: ds => if d.toLower = 's' then ds else r1
            | [] => r1).length ≤ r1.length := by
          cases r1 with
          | nil => simp
          | cons d ds => by_cases hd : d.toLower = 's' <;> simp [hd]
        generalize hgen : (match r1 with
            | d :: ds => if d.toLower = 's' then ds else r1
            | [] => r1) = r2 at h hr2
        have hr3 : (r2.dropWhile reSpace).length ≤ r2.length := length_dropWhile_le _ _
        have hr4 : ((r2.dropWhile reSpace).dropWhile Char.isDigit).length ≤
            (r2.dropWhile reSpace).length := length_dropWhile_le _ _
        generalize hgen4 : (r2.dropWhile reSpace).dropWhile Char.isDigit = r4 at h hr4
        split at h
        next => simp at h
        next =>
          split at h
          next => simp at h
          next =>
            split at h
            next d2 r8 heqopt =>
              have hr8 : r8.length + 1 ≤ r4.length := by
                split at heqopt
                next r6 heq6 =>
                  have h6 : r6.length + 1 ≤ r4.length := by
                    have := length_dropWhile_le reSpace r4
                    rw [heq6] at this
                    simpa using this
                  split at heqopt
                  next => simp at heqopt
                  next =>
                    simp only [Option.some.injEq, Prod.mk.injEq] at heqopt
                    have h7 : ((r6.dropWhile reSpace).dropWhile Char.isDigit).length ≤
                        r6.length := by
                      calc ((r6.dropWhile reSpace).dropWhile Char.isDigit).length
                          ≤ (r6.dropWhile reSpace).length := length_dropWhile_le _ _
                        _ ≤ r6.length := length_dropWhile_le _ _
                    rw [heqopt.2] at h7
                    omega
                next => simp at heqopt
              split at h
              · simp at h
                simp only [List.length_cons] at *
                omega
              · split at h
                · simp at h
                  simp only [List.length_cons] at *
                  omega
                · simp at h
            next heqopt =>
              split at h
              · simp at h
                simp only [List.length_cons] at *
                omega
              · simp at h
    · rw [if_neg hc] at h; simp at h

theorem subAllF_eq_of_none (m : Str → Option (ℕ × Str)) :
    ∀ (fuel : ℕ) (s : Str), (∀ i, m (s.drop i) = none) → subAllF m fuel s = s := by
  intro fuel
  induction fuel with
  | zero => intro s _; rfl
  | succ n ih =>
    intro s h
    cases s with
    | nil => rfl
    | cons c rest =>
      have h0 := h 0
      simp only [List.drop_zero] at h0
      simp only [subAllF, h0]
      have : subAllF m n rest = rest := by
        apply ih
        intro i
        have := h (i + 1)
        simpa using this
      rw [this]

theorem noMatchB_all {m : Str → Option (ℕ × Str)} {s : Str} (h : noMatchB m s = true) :
    ∀ i, m (s.drop i) = none := by
  intro i
  by_cases hi : i ≤ s.length
  · have := (List.all_eq_true.mp h) i (by simp [List.mem_range]; omega)
    simpa [Option.isNone_iff_eq_none] using this
  · have hlen := (List.all_eq_true.mp h) s.length (by simp [List.mem_range])
    rw [List.drop_eq_nil_of_le (by omega)]
    rw [List.drop_eq_nil_of_le (by omega)] at hlen
    simpa [Option.isNone_iff_eq_none] using hlen

theorem subAll_eq_of_noMatchB {m : Str → Option (ℕ × Str)} {s : Str}
    (h : noMatchB m s = true) : subAll m s = s :=
  subAllF_eq_of_none m s.length s (noMatchB_all h)

theorem subAllF_remove_eq (valid : List ℕ) :
    ∀ (fuel : ℕ) (s : Str), s.length ≤ fuel →
      (∀ p ∈ findAllF citeExtractMatcher fuel s, citationKept valid p.1 p.2 = true) →
      subAllF (removeMatcher valid) fuel s = s := by
  intro fuel
  induction fuel with
  | zero => intro s _ _; rfl
  | succ n ih =>
    intro s hlen hp
    cases s with
    | nil => rfl
    | cons c rest =>
      cases hm : matchCitation (c :: rest) with
      | none =>
        have hrm : removeMatcher valid (c :: rest) = none := by
          simp [removeMatcher, hm]
        have hfa : findAllF citeExtractMatcher (n + 1) (c :: rest) =
            findAllF citeExtractMatcher n rest := by
          simp [findAllF, citeExtractMatcher, hm]
        simp only [subAllF, hrm]
        rw [ih rest (by simpa using hlen) (by rw [hfa] at hp; exact hp)]
      | some t =>
        obtain ⟨len, a, b⟩ := t
        have hbounds := matchCitation_pos_le hm
        have hkept : citationKept valid a b = true := by
          apply hp (a, b)
          simp [findAllF, citeExtractMatcher, hm]
        have hrm : removeMatcher valid (c :: rest) =
            some (len, (c :: rest).take len) := by
          simp [removeMatcher, hm, hkept]
        have hmax : max len 1 = len := by omega
        simp only [subAllF, hrm, hmax]
        have hlen2 : ((c :: rest).drop len).length ≤ n := by
          simp only [List.length_drop]
          simp only [List.length_cons] at hlen ⊢
          omega
        have hp2 : ∀ p ∈ findAllF citeExtractMatcher n ((c :: rest).drop len),
            citationKept valid p.1 p.2 = true := by
          intro p hpmem
          apply hp
          simp [findAllF, citeExtractMatcher, hm, hmax]
          exact Or.inr hpmem
        rw [ih _ hlen2 hp2, List.take_append_drop]

theorem remove_invalid_eq_of_kept (answer : Str) (valid : List ℕ)
    (h : ∀ p ∈ extract_citations answer, citationKept valid p.1 p.2 = true) :
    remove_invalid_citations answer valid = answer :=
  subAllF_remove_eq valid answer.length answer le_rfl h

theorem matchCitation_not_bracket {c : Char} {rest : Str} (h : ¬ c = '[') :
    matchCitation (c :: rest) = none := by
  simp [matchCitation, h]

theorem extract_citations_cons_none {c : Char} {rest : Str}
    (h : matchCitation (c :: rest) = none) :
    extract_citations (c :: rest) = extract_citations rest := by
  simp [extract_citations, findAll, findAllF, citeExtractMatcher, h]

theorem extract_citations_append_no_bracket :
    ∀ (pre x : Str), '[' ∉ pre → extract_citations (pre ++ x) = extract_citations x := by
  intro pre
  induction pre with
  | nil => intro x _; rfl
  | cons c p ih =>
    intro x h
    have hc : ¬ c = '[' := by
      intro hcc
      exact h (by simp [hcc])
    rw [List.cons_append,
        extract_citations_cons_none (matchCitation_not_bracket hc)]
    exact ih x (by intro hm; exact h (List.mem_cons_of_mem _ hm))

theorem extract_citations_cons_of_match {c : Char} {rest : Str} {len a b : ℕ}
    (h : matchCitation (c :: rest) = some (len, a, b)) :
    ∃ t, extract_citations (c :: rest) = (a, b) :: t := by
  refine ⟨findAllF citeExtractMatcher rest.length ((c :: rest).drop (max len 1)), ?_⟩
  simp [extract_citations, findAll, findAllF, citeExtractMatcher, h]

theorem mem_setInsert {l : List ℕ} {x p : ℕ} : p ∈ setInsert l x ↔ p ∈ l ∨ p = x := by
  unfold setInsert
  by_cases hx : x ∈ l
  · simp only [if_pos hx]
    constructor
    · exact Or.inl
    · rintro (h | h)
      · exact h
      · rw [h]; exact hx
  · simp [if_neg hx]

theorem mem_insNat {x p : ℕ} : ∀ {l : List ℕ}, p ∈ insNat x l ↔ p ∈ x :: l := by
  intro l
  induction l with
  | nil => simp [insNat]
  | cons y ys ih =>
    unfold insNat
    by_cases hxy : x ≤ y
    · simp [hxy]
    · simp only [if_neg hxy, List.mem_cons, ih]
      tauto

theorem mem_sortNat {p : ℕ} : ∀ {l : List ℕ}, p ∈ sortNat l ↔ p ∈ l := by
  intro l
  induction l with
  | nil => simp [sortNat]
  | cons x xs ih =>
    unfold sortNat
    rw [mem_insNat]
    simp [ih]

theorem collectInner_fst_subset (valid : List ℕ) (rng : List ℕ) :
    ∀ (acc : List ℕ × List ℕ), (∀ p ∈ acc.1, p ∈ valid) →
    ∀ p ∈ (rng.foldl (fun acc2 q =>
        if q ∈ valid then (setInsert acc2.1 q, acc2.2) else (acc2.1, acc2.2 ++ [q])) acc).1,
      p ∈ valid := by
  induction rng with
  | nil => intro acc h; exact h
  | cons q qs ih =>
    intro acc h
    simp only [List.foldl_cons]
    by_cases hq : q ∈ valid
    · apply ih
      simp only [if_pos hq]
      intro p hp
      rcases mem_setInsert.mp hp with hp | hp
      · exact h p hp
      · rw [hp]; exact hq
    · apply ih
      simp only [if_neg hq]
      exact h

theorem collectPages_fst_subset (valid : List ℕ) (cits : List (ℕ × ℕ)) :
    ∀ p ∈ (collectPages valid cits).1, p ∈ valid := by
  unfold collectPages
  suffices h : ∀ (acc : List ℕ × List ℕ), (∀ p ∈ acc.1, p ∈ valid) →
      ∀ p ∈ (cits.foldl (fun acc c =>
        (pythonRange c.1 (c.2 + 1)).foldl (fun acc2 q =>
          if q ∈ valid then (setInsert acc2.1 q, acc2.2) else (acc2.1, acc2.2 ++ [q])) acc) acc).1,
        p ∈ valid by
    apply h
    simp
  induction cits with
  | nil => intro acc h; exact h
  | cons c cs ih =>
    intro acc h
    simp only [List.foldl_cons]
    exact ih _ (collectInner_fst_subset valid _ acc h)

theorem collectInner_snd_eq (valid : List ℕ) (rng : List ℕ)
    (hrng : ∀ q ∈ rng, q ∈ valid) :
    ∀ (acc : List ℕ × List ℕ),
    (rng.foldl (fun acc2 q =>
        if q ∈ valid then (setInsert acc2.1 q, acc2.2) else (acc2.1, acc2.2 ++ [q])) acc).2 =
      acc.2 := by
  induction rng with
  | nil => intro acc; rfl
  | cons q qs ih =>
    intro acc
    simp only [List.foldl_cons]
    have hq : q ∈ valid := hrng q (by simp)
    rw [ih (by intro x hx; exact hrng x (by simp [hx]))]
    simp [if_pos hq]

theorem collectOuter_snd_eq (valid : List ℕ) :
    ∀ (cits : List (ℕ × ℕ)) (acc : List ℕ × List ℕ),
    (∀ c ∈ cits, ∀ q ∈ pythonRange c.1 (c.2 + 1), q ∈ valid) →
    (cits.foldl (fun acc c =>
        (pythonRange c.1 (c.2 + 1)).foldl (fun acc2 q =>
          if q ∈ valid then (setInsert acc2.1 q, acc2.2) else (acc2.1, acc2.2 ++ [q])) acc) acc).2 =
      acc.2 := by
  intro cits
  induction cits with
  | nil => intro acc _; rfl
  | cons c cs ih =>
    intro acc h
    simp only [List.foldl_cons]
    rw [ih _ (fun x hx => h x (List.mem_cons_of_mem _ hx))]
    exact collectInner_snd_eq valid _ (h c (List.mem_cons_self _ _)) acc

theorem collectPages_snd_nil (valid : List ℕ) (cits : List (ℕ × ℕ))
    (h : ∀ c ∈ cits, ∀ q ∈ pythonRange c.1 (c.2 + 1), q ∈ valid) :
    (collectPages valid cits).2 = [] :=
  collectOuter_snd_eq valid cits ([], []) h

/-- Repaired answer of the non-refusal path of
validate_and_fix_citations (the value bound to fixed_answer after the
three repair steps). -/
def vfcFixed (answer : Str) (chunks : List ChunkContext) : Str :=
  let fixed2 := clean_citation_formatting
    (remove_invalid_citations answer (get_valid_page_range chunks))
  if hasCitation fixed2 then fixed2 else ensure_sentence_citations fixed2 chunks

/-- Final page tally of the non-refusal path of
validate_and_fix_citations. -/
def vfcCollected (answer : Str) (chunks : List ChunkContext) : List ℕ × List ℕ :=
  collectPages (get_valid_page_range chunks) (extract_citations (vfcFixed answer chunks))

theorem validate_eq_refusal (answer : Str) (chunks : List ChunkContext)
    (href : is_refusal_answer answer = true) :
    validate_and_fix_citations answer chunks =
      { valid := true, answer := answer, cited_pages := [], invalid_pages := [],
        error := none } := by
  unfold validate_and_fix_citations
  rw [if_pos href]

theorem validate_eq_not_refusal (answer : Str) (chunks : List ChunkContext)
    (href : ¬ is_refusal_answer answer = true) :
    validate_and_fix_citations answer chunks =
      if (!(vfcCollected answer chunks).2.isEmpty) = true then
        { valid := false, answer := vfcFixed answer chunks,
          cited_pages := sortNat (vfcCollected answer chunks).1,
          invalid_pages := (vfcCollected answer chunks).2,
          error := some ("Invalid citations remain: ".data ++
            listRepr (vfcCollected answer chunks).2) }
      else
        { valid := true, answer := vfcFixed answer chunks,
          cited_pages := sortNat (vfcCollected answer chunks).1,
          invalid_pages := [], error := none } := by
  unfold validate_and_fix_citations
  rw [if_neg href]
  rfl

/-- C1: whenever validate_and_fix_citations returns valid = true, every
page in cited_pages lies in the valid page range derived from the
supplied chunks. -/
theorem cited_pages_subset_valid (answer : Str) (chunks : List ChunkContext)
    (_h : (validate_and_fix_citations answer chunks).valid = true) :
    ∀ p ∈ (validate_and_fix_citations answer chunks).cited_pages,
      p ∈ get_valid_page_range chunks := by
  intro p hp
  by_cases href : is_refusal_answer answer = true
  · rw [validate_eq_refusal answer chunks href] at hp
    simp at hp
  · rw [validate_eq_not_refusal answer chunks href] at hp
    unfold vfcCollected at hp
    split at hp
    all_goals simp only at hp
    all_goals
      exact collectPages_fst_subset (get_valid_page_range chunks)
        (extract_citations (vfcFixed answer chunks)) p (mem_sortNat.mp hp)

theorem wellFormatted_clean_eq {s : Str} (h : wellFormattedB s = true) :
    clean_citation_formatting s = s := by
  unfold wellFormattedB at h
  simp only [Bool.and_eq_true] at h
  obtain ⟨⟨⟨⟨⟨⟨⟨h1, h2⟩, h3⟩, h4⟩, h5⟩, h6⟩, h7⟩, h8⟩ := h
  unfold clean_citation_formatting
  rw [subAll_eq_of_noMatchB h1, subAll_eq_of_noMatchB h2, subAll_eq_of_noMatchB h3,
      subAll_eq_of_noMatchB h4, subAll_eq_of_noMatchB h5, subAll_eq_of_noMatchB h6,
      subAll_eq_of_noMatchB h7]
  exact of_decide_eq_true h8

/-- C4: an answer whose citations are all valid and which is already
correctly formatted is returned unchanged with valid = true, provided it
contains at least one citation; an answer with no citations at all is
modified by the citation-injection step. -/
theorem validator_roundtrip_preserves_answer (answer : Str) (chunks : List ChunkContext)
    (hval : ∀ c ∈ extract_citations answer, ∀ q ∈ pythonRange c.1 (c.2 + 1),
      q ∈ get_valid_page_range chunks)
    (hfmt : wellFormattedB answer = true)
    (hcite : extract_citations answer ≠ []) :
    (validate_and_fix_citations answer chunks).answer = answer ∧
    (validate_and_fix_citations answer chunks).valid = true := by
  by_cases href : is_refusal_answer answer = true
  · rw [validate_eq_refusal answer chunks href]
    exact ⟨rfl, rfl⟩
  · have hkept : ∀ p ∈ extract_citations answer,
        citationKept (get_valid_page_range chunks) p.1 p.2 = true := by
      intro p hpmem
      unfold citationKept
      rw [List.all_eq_true]
      intro q hq
      exact decide_eq_true (hval p hpmem q hq)
    have hrem : remove_invalid_citations answer (get_valid_page_range chunks) = answer :=
      remove_invalid_eq_of_kept _ _ hkept
    have hfix : vfcFixed answer chunks = answer := by
      unfold vfcFixed
      rw [hrem, wellFormatted_clean_eq hfmt]
      have hc : hasCitation answer = true := by
        unfold hasCitation
        simp [hcite]
      simp [hc]
    have hsnd : (vfcCollected answer chunks).2 = [] := by
      unfold vfcCollected
      rw [hfix]
      exact collectPages_snd_nil _ _ hval
    rw [validate_eq_not_refusal answer chunks href]
    simp [hsnd, hfix]

theorem cited_pages_subset_valid_witness :
    (validate_and_fix_citations exAnsCited exChunks13).valid = true ∧
    2 ∈ (validate_and_fix_citations exAnsCited exChunks13).cited_pages ∧
    2 ∈ get_valid_page_range exChunks13 :=
  ⟨by decide, by decide,
    cited_pages_subset_valid exAnsCited exChunks13 (by decide) 2 (by decide)⟩

theorem validator_roundtrip_no_citation_cex :
    (∀ c ∈ extract_citations exAnsNoCite, ∀ q ∈ pythonRange c.1 (c.2 + 1),
      q ∈ get_valid_page_range exChunks23) ∧
    wellFormattedB exAnsNoCite = true ∧
    (validate_and_fix_citations exAnsNoCite exChunks23).valid = true ∧
    ¬ (validate_and_fix_citations exAnsNoCite exChunks23).answer = exAnsNoCite := by
  refine ⟨by decide, by decide, by decide, by decide⟩

theorem validator_roundtrip_preserves_answer_witness :
    (validate_and_fix_citations exAnsWellFormed exChunks13).answer = exAnsWellFormed ∧
    (validate_and_fix_citations exAnsWellFormed exChunks13).valid = true :=
  validator_roundtrip_preserves_answer exAnsWellFormed exChunks13
    (by decide) (by decide) (by decide)

/-- C8: an answer containing a refusal phrase (case-insensitive
substring) is returned unchanged with valid = true and empty cited and
invalid pages, regardless of any out-of-range citations it contains. -/
theorem refusal_bypasses_validation (answer : Str) (chunks : List ChunkContext)
    (h : ∃ ph ∈ refusalPhrases, containsStr ph (toLowerStr answer) = true) :
    validate_and_fix_citations answer chunks =
      { valid := true, answer := answer, cited_pages := [], invalid_pages := [],
        error := none } := by
  apply validate_eq_refusal
  unfold is_refusal_answer
  rw [List.any_eq_true]
  obtain ⟨ph, hmem, hc⟩ := h
  exact ⟨ph, hmem, hc⟩

theorem refusal_bypasses_validation_witness :
    (∃ ph ∈ refusalPhrases, containsStr ph (toLowerStr exAnsRefusal) = true) ∧
    validate_and_fix_citations exAnsRefusal exChunks12 =
      { valid := true, answer := exAnsRefusal, cited_pages := [], invalid_pages := [],
        error := none } :=
  ⟨⟨"not mentioned in".data, by decide, by decide⟩,
    refusal_bypasses_validation exAnsRefusal exChunks12
      ⟨"not mentioned in".data, by decide, by decide⟩⟩

theorem digit_not_reSpace {c : Char} (h : c.isDigit = true) : reSpace c = false := by
  cases hsp : reSpace c with
  | false => rfl
  | true =>
    exfalso
    have hmem : ((((c = ' ' ∨ c = '\t') ∨ c = '\n') ∨ c = '\x0d') ∨ c = '\x0b') ∨
        c = '\x0c' := by
      simpa [reSpace, pyIsSpace] using hsp
    rcases hmem with ⟨⟨⟨⟨rfl | rfl⟩ | rfl⟩ | rfl⟩ | rfl⟩ | rfl <;> exact absurd h (by decide)

theorem takeWhile_append_stop {p : Char → Bool} (l r : Str)
    (hl : ∀ c ∈ l, p c = true) (hr : ∀ c cs, r = c :: cs → p c = false) :
    (l ++ r).takeWhile p = l ∧ (l ++ r).dropWhile p = r := by
  constructor
  · rw [List.takeWhile_append_of_pos (by intro a ha; exact hl a ha)]
    cases r with
    | nil => simp
    | cons c cs =>
      rw [List.takeWhile_cons_of_neg]
      · simp
      · simp [hr c cs rfl]
  · rw [List.dropWhile_append_of_pos (by intro a ha; exact hl a ha)]
    cases r with
    | nil => simp
    | cons c cs =>
      rw [List.dropWhile_cons_of_neg]
      simp [hr c cs rfl]

theorem stripCI_page (X : Str) :
    stripCI ['p', 'a', 'g', 'e'] ('P' :: 'a' :: 'g' :: 'e' :: X) = some X := by
  have h1 : 'P'.toLower = 'p' := by decide
  have h2 : 'a'.toLower = 'a' := by decide
  have h3 : 'g'.toLower = 'g' := by decide
  have h4 : 'e'.toLower = 'e' := by decide
  simp [stripCI, h1, h2, h3, h4]

theorem matchCitation_pagesRange (ds es post : Str)
    (hds : ds ≠ []) (hes : es ≠ [])
    (hd : ∀ c ∈ ds, c.isDigit = true) (he : ∀ c ∈ es, c.isDigit = true) :
    ∃ len, matchCitation ("[Pages ".data ++ ds ++ "-".data ++ es ++ "]".data ++ post) =
      some (len, digitVal ds, digitVal es) := by
  obtain ⟨d0, ds', rfl⟩ := List.exists_cons_of_ne_nil hds
  obtain ⟨e0, es', rfl⟩ := List.exists_cons_of_ne_nil hes
  have hshape : "[Pages ".data ++ (d0 :: ds') ++ "-".data ++ (e0 :: es') ++ "]".data ++ post =
      '[' :: 'P' :: 'a' :: 'g' :: 'e' :: 's' :: ' ' ::
        (d0 :: (ds' ++ '-' :: (e0 :: (es' ++ ']' :: post)))) := by
    simp
  rw [hshape]
  have hd0 : d0.isDigit = true := hd d0 (by simp)
  have he0 : e0.isDigit = true := he e0 (by simp)
  have e1 : (' ' :: d0 :: (ds' ++ '-' :: (e0 :: (es' ++ ']' :: post)))).takeWhile reSpace
      = [' '] := by
    rw [List.takeWhile_cons_of_pos (by decide)]
    rw [List.takeWhile_cons_of_neg (by simp [digit_not_reSpace hd0])]
  have e2 : (' ' :: d0 :: (ds' ++ '-' :: (e0 :: (es' ++ ']' :: post)))).dropWhile reSpace
      = d0 :: (ds' ++ '-' :: (e0 :: (es' ++ ']' :: post))) := by
    rw [List.dropWhile_cons_of_pos (by decide)]
    rw [List.dropWhile_cons_of_neg (by simp [digit_not_reSpace hd0])]
  have e34 := takeWhile_append_stop (p := Char.isDigit) (d0 :: ds')
    ('-' :: (e0 :: (es' ++ ']' :: post))) (by intro c hc; exact hd c hc)
    (by
      intro c cs hc
      have hc0 : c = '-' := by
        have := congrArg (fun l => l.head?) hc
        simpa using this.symm
      rw [hc0]; decide)
  have e3 : (d0 :: (ds' ++ '-' :: (e0 :: (es' ++ ']' :: post)))).takeWhile Char.isDigit
      = d0 :: ds' := by simpa using e34.1
  have e4 : (d0 :: (ds' ++ '-' :: (e0 :: (es' ++ ']' :: post)))).dropWhile Char.isDigit
      = '-' :: (e0 :: (es' ++ ']' :: post)) := by simpa using e34.2
  have e5 : ('-' :: (e0 :: (es' ++ ']' :: post))).dropWhile reSpace
      = '-' :: (e0 :: (es' ++ ']' :: post)) := by
    rw [List.dropWhile_cons_of_neg (by decide)]
  have e7 : (e0 :: (es' ++ ']' :: post)).dropWhile reSpace
      = e0 :: (es' ++ ']' :: post) := by
    rw [List.dropWhile_cons_of_neg (by simp [digit_not_reSpace he0])]
  have e68 := takeWhile_append_stop (p := Char.isDigit) (e0 :: es') (']' :: post)
    (by intro c hc; exact he c hc)
    (by
      intro c cs hc
      have hc0 : c = ']' := by
        have := congrArg (fun l => l.head?) hc
        simpa using this.symm
      rw [hc0]; decide)
  have e6 : (e0 :: (es' ++ ']' :: post)).takeWhile Char.isDigit = e0 :: es' := by
    simpa using e68.1
  have e8 : (e0 :: (es' ++ ']' :: post)).dropWhile Char.isDigit = ']' :: post := by
    simpa using e68.2
  have hsl : 's'.toLower = 's' := by decide
  refine ⟨('[' :: 'P' :: 'a' :: 'g' :: 'e' :: 's' :: ' ' ::
      (d0 :: (ds' ++ '-' :: (e0 :: (es' ++ ']' :: post))))).length - post.length, ?_⟩
  simp only [matchCitation, stripCI_page, hsl, if_pos rfl, if_true, ite_true, e1, e2, e3,
    e4, e5, e6, e7, e8, List.isEmpty_cons, Bool.false_eq_true, if_false, reduceCtorEq]

theorem extract_citations_mem_of_match {x : Str} {len a b : ℕ}
    (h : matchCitation x = some (len, a, b)) : (a, b) ∈ extract_citations x := by
  cases x with
  | nil => simp [matchCitation] at h
  | cons c rest =>
    obtain ⟨t, ht⟩ := extract_citations_cons_of_match h
    rw [ht]
    exact List.mem_cons_self _ _

/-- C9: a reversed range citation with end page below start page spans
an empty page range, is extracted as the pair of its two numbers, is
never removed, is kept in the final answer, contributes no pages to
cited_pages or invalid_pages, and never by itself causes valid =
false. -/
theorem reversed_range_citation_inert (s e : ℕ) (hse : e < s) :
    pythonRange s (e + 1) = [] ∧
    (∀ valid : List ℕ, citationKept valid s e = true) ∧
    (∀ ds es pre post : Str, ds ≠ [] → es ≠ [] →
      (∀ c ∈ ds, c.isDigit = true) → (∀ c ∈ es, c.isDigit = true) →
      digitVal ds = s → digitVal es = e → '[' ∉ pre →
      (s, e) ∈ extract_citations
        (pre ++ ("[Pages ".data ++ ds ++ "-".data ++ es ++ "]".data ++ post))) ∧
    (∀ chunks : List ChunkContext,
      validate_and_fix_citations exAnsReversed chunks =
        { valid := true, answer := exAnsReversed, cited_pages := [],
          invalid_pages := [], error := none }) := by
  have hrange : pythonRange s (e + 1) = [] := by
    unfold pythonRange
    rw [Nat.sub_eq_zero_of_le (by omega)]
    rfl
  have hkept : ∀ valid : List ℕ, citationKept valid s e = true := by
    intro valid
    unfold citationKept
    rw [hrange]
    rfl
  refine ⟨hrange, hkept, ?_, ?_⟩
  · intro ds es pre post hds hes hd he hvd hve hpre
    rw [extract_citations_append_no_bracket pre _ hpre]
    obtain ⟨len, hm⟩ := matchCitation_pagesRange ds es post hds hes hd he
    rw [hvd, hve] at hm
    exact extract_citations_mem_of_match hm
  · intro chunks
    have href : ¬ is_refusal_answer exAnsReversed = true := by decide
    have hext : extract_citations exAnsReversed = [(5, 3)] := by decide
    have hkept53 : ∀ p ∈ extract_citations exAnsReversed,
        citationKept (get_valid_page_range chunks) p.1 p.2 = true := by
      rw [hext]
      intro p hp
      simp only [List.mem_singleton] at hp
      rw [hp]
      rfl
    have hrem : remove_invalid_citations exAnsReversed (get_valid_page_range chunks) =
        exAnsReversed := remove_invalid_eq_of_kept _ _ hkept53
    have hclean : clean_citation_formatting exAnsReversed = exAnsReversed :=
      wellFormatted_clean_eq (by decide)
    have hfix : vfcFixed exAnsReversed chunks = exAnsReversed := by
      unfold vfcFixed
      rw [hrem, hclean]
      simp [show hasCitation exAnsReversed = true by decide]
    have hcol : vfcCollected exAnsReversed chunks = ([], []) := by
      unfold vfcCollected
      rw [hfix, hext]
      rfl
    rw [validate_eq_not_refusal exAnsReversed chunks href]
    simp [hcol, hfix]
    rfl

theorem reversed_range_citation_inert_witness :
    pythonRange 5 (3 + 1) = [] ∧
    citationKept [1, 2] 5 3 = true ∧
    (5, 3) ∈ extract_citations exAnsReversed ∧
    validate_and_fix_citations exAnsReversed exChunks12 =
      { valid := true, answer := exAnsReversed, cited_pages := [],
        invalid_pages := [], error := none } := by
  obtain ⟨h1, h2, h3, h4⟩ := reversed_range_citation_inert 5 3 (by decide)
  refine ⟨h1, h2 [1, 2], ?_, h4 exChunks12⟩
  have hmem := h3 ['5'] ['3'] "The relevant values appear in the appendix ".data []
    (by decide) (by decide) (by decide) (by decide) (by decide) (by decide) (by decide)
  have heq : "The relevant values appear in the appendix ".data ++
      ("[Pages ".data ++ ['5'] ++ "-".data ++ ['3'] ++ "]".data ++ ([] : Str)) =
      exAnsReversed := by decide
  rw [heq] at hmem
  exact hmem

theorem mergeFold_fst_inv (min_size : ℕ) :
    ∀ (segments : List Str) (acc : List Str × Str),
    (∀ s ∈ acc.1, min_size ≤ estimate_tokens s) →
    ∀ s ∈ (segments.foldl (fun (acc : List Str × Str) segment =>
        if (pyStrip segment).isEmpty then acc
        else if acc.2.isEmpty then (acc.1, segment)
        else if estimate_tokens acc.2 < min_size then (acc.1, acc.2 ++ segment)
        else (acc.1 ++ [acc.2], segment)) acc).1,
      min_size ≤ estimate_tokens s := by
  intro segments
  induction segments with
  | nil => intro acc h; exact h
  | cons seg rest ih =>
    intro acc h
    simp only [List.foldl_cons]
    by_cases h1 : (pyStrip seg).isEmpty = true
    · rw [if_pos h1]; exact ih acc h
    · rw [if_neg h1]
      by_cases h2 : acc.2.isEmpty = true
      · rw [if_pos h2]; exact ih _ h
      · rw [if_neg h2]
        by_cases h3 : estimate_tokens acc.2 < min_size
        · rw [if_pos h3]; exact ih _ h
        · rw [if_neg h3]
          apply ih
          intro s hs
          rcases List.mem_append.mp hs with hs | hs
          · exact h s hs
          · simp only [List.mem_singleton] at hs
            rw [hs]; omega

theorem merge_small_chunks_dropLast_min (segments : List Str) (min_size : ℕ) :
    ∀ s ∈ (merge_small_chunks segments min_size).dropLast,
      min_size ≤ estimate_tokens s := by
  intro s hs
  have hall : ∀ s ∈ (mergeFold min_size segments).1, min_size ≤ estimate_tokens s :=
    mergeFold_fst_inv min_size segments ([], []) (by simp)
  unfold merge_small_chunks at hs
  split at hs
  · exact hall s (List.dropLast_subset _ hs)
  · rw [List.dropLast_concat] at hs
    exact hall s hs

/-- C5: in chunk_document every merged segment except possibly the last
has an estimated token count of at least half of MIN_CHUNK_SIZE, the
threshold actually passed to merge_small_chunks; the spec threshold of
the full MIN_CHUNK_SIZE does not hold. -/
theorem merged_segments_at_least_half_min (pages : List PageText) :
    ∀ s ∈ (chunk_document_segments pages).dropLast,
      MIN_CHUNK_SIZE / 2 ≤ estimate_tokens s := by
  intro s hs
  unfold chunk_document_segments at hs
  split at hs
  · simp at hs
  · split at hs
    · simp at hs
    · exact merge_small_chunks_dropLast_min _ _ s hs

theorem merge_small_chunks_min_cex :
    ¬ (∀ s ∈ (chunk_document_segments exC5Pages).dropLast,
        MIN_CHUNK_SIZE ≤ estimate_tokens s) := by decide

theorem merged_segments_at_least_half_min_witness :
    (exWords193 ++ "\n\n".data) ∈ (chunk_document_segments exC5Pages).dropLast ∧
    MIN_CHUNK_SIZE / 2 ≤ estimate_tokens (exWords193 ++ "\n\n".data) :=
  ⟨by decide, merged_segments_at_least_half_min exC5Pages _ (by decide)⟩

theorem halfEvenRound_intCast (k : ℤ) : halfEvenRound (k : ℚ) = k := by
  unfold halfEvenRound
  rw [Int.floor_intCast]
  norm_num

theorem halfEvenRound_sub_int (y : ℚ) (n : ℤ) (h : Int.fract y ≠ 1/2) :
    halfEvenRound (y - n) = halfEvenRound y - n := by
  unfold halfEvenRound
  rw [Int.floor_sub_int]
  have hr : y - (n : ℚ) - ((⌊y⌋ - n : ℤ) : ℚ) = y - ⌊y⌋ := by push_cast; ring
  rw [hr]
  by_cases h1 : y - ⌊y⌋ < 1/2
  · rw [if_pos h1, if_pos h1]
  · by_cases h2 : 1/2 < y - ⌊y⌋
    · rw [if_neg h1, if_neg h1, if_pos h2, if_pos h2]
      omega
    · exfalso
      apply h
      have heq : y - ⌊y⌋ = 1/2 := le_antisymm (not_lt.mp h2) (not_lt.mp h1)
      unfold Int.fract
      exact heq

theorem halfEvenRound_le_int (y : ℚ) (n : ℤ) (h : y ≤ n) : halfEvenRound y ≤ n := by
  unfold halfEvenRound
  have hf : ⌊y⌋ ≤ n := by
    have := Int.floor_le_floor h
    simpa using this
  by_cases h1 : y - ⌊y⌋ < 1/2
  · rw [if_pos h1]; exact hf
  · have hfn : ⌊y⌋ ≠ n := by
      intro hcon
      apply h1
      have hy : y ≤ (⌊y⌋ : ℚ) := by rw [hcon]; exact h
      linarith
    rw [if_neg h1]
    by_cases h2 : 1/2 < y - ⌊y⌋
    · rw [if_pos h2]; omega
    · rw [if_neg h2]
      split <;> omega

theorem int_le_halfEvenRound (y : ℚ) (n : ℤ) (h : (n : ℚ) ≤ y) : n ≤ halfEvenRound y := by
  unfold halfEvenRound
  have hf : n ≤ ⌊y⌋ := Int.le_floor.mpr h
  by_cases h1 : y - ⌊y⌋ < 1/2
  · rw [if_pos h1]; exact hf
  · rw [if_neg h1]
    by_cases h2 : 1/2 < y - ⌊y⌋
    · rw [if_pos h2]; omega
    · rw [if_neg h2]
      split <;> omega

theorem rawScore_regen (i : ConfidenceInputs) (h : i.required_regeneration = false) :
    rawScore { i with required_regeneration := true } = rawScore i - 3/20 := by
  unfold rawScore relevanceScore coverageScore sourceScore docScore penaltyOf
  simp [h]

/-- C3: flipping required_regeneration from false to true lowers the
confidence by exactly fifteen hundredths, provided the raw score stays
inside the clamp window and the two-decimal rounding does not hit a
half-cent tie; the clamp at zero can otherwise shrink the difference. -/
theorem regeneration_penalty_exact_unclamped (i : ConfidenceInputs)
    (hv : i.citation_valid = true) (hr : i.required_regeneration = false)
    (hub : rawScore i ≤ 99/100) (hlb : 3/20 ≤ rawScore i)
    (htie : Int.fract (100 * rawScore i) ≠ 1/2) :
    compute_confidence i -
      compute_confidence { i with required_regeneration := true } = 3/20 := by
  unfold compute_confidence
  rw [rawScore_regen i hr]
  simp only [hv, Bool.not_true, Bool.false_eq_true, if_false]
  have h1 : max 0 (min (99/100) (rawScore i)) = rawScore i := by
    rw [min_eq_right hub, max_eq_right (by linarith)]
  have h2 : max 0 (min (99/100 : ℚ) (rawScore i - 3/20)) = rawScore i - 3/20 := by
    rw [min_eq_right (by linarith), max_eq_right (by linarith)]
  rw [h1, h2]
  unfold roundTo2
  have h3 : (100 : ℚ) * (rawScore i - 3/20) = 100 * rawScore i - ((15 : ℤ) : ℚ) := by
    push_cast; ring
  rw [h3, halfEvenRound_sub_int _ _ htie]
  push_cast
  ring

theorem conf_clamped_eval : compute_confidence cInpClamped = 1/10 := by
  have hraw : rawScore cInpClamped = 1/10 := by
    unfold rawScore relevanceScore coverageScore sourceScore docScore penaltyOf cInpClamped
    norm_num
  have hval : cInpClamped.citation_valid = true := rfl
  unfold compute_confidence
  rw [hval]
  simp only [Bool.not_true, Bool.false_eq_true, if_false]
  rw [hraw]
  have hmin : min (99/100 : ℚ) (1/10) = 1/10 := by norm_num [min_def]
  have hmax : max (0 : ℚ) (1/10) = 1/10 := by norm_num [max_def]
  rw [hmin, hmax]
  unfold roundTo2
  have h100 : (100 : ℚ) * (1/10) = ((10 : ℤ) : ℚ) := by norm_num
  rw [h100, halfEvenRound_intCast 10]
  norm_num

theorem conf_clamped_regen_eval :
    compute_confidence { cInpClamped with required_regeneration := true } = 0 := by
  have hraw : rawScore cInpClamped = 1/10 := by
    unfold rawScore relevanceScore coverageScore sourceScore docScore penaltyOf cInpClamped
    norm_num
  have hraw2 : rawScore { cInpClamped with required_regeneration := true } = -(1/20) := by
    rw [rawScore_regen cInpClamped rfl, hraw]
    norm_num
  have hval : ({ cInpClamped with required_regeneration := true } :
      ConfidenceInputs).citation_valid = true := rfl
  unfold compute_confidence
  rw [hval]
  simp only [Bool.not_true, Bool.false_eq_true, if_false]
  rw [hraw2]
  have hmin : min (99/100 : ℚ) (-(1/20)) = -(1/20) := by norm_num [min_def]
  have hmax : max (0 : ℚ) (-(1/20)) = 0 := by norm_num [max_def]
  rw [hmin, hmax]
  unfold roundTo2
  have h100 : (100 : ℚ) * 0 = ((0 : ℤ) : ℚ) := by norm_num
  rw [h100, halfEvenRound_intCast 0]
  norm_num

theorem regeneration_penalty_clamped_cex :
    cInpClamped.citation_valid = true ∧
    cInpClamped.required_regeneration = false ∧
    compute_confidence cInpClamped = 1/10 ∧
    compute_confidence { cInpClamped with required_regeneration := true } = 0 ∧
    ¬ (compute_confidence cInpClamped -
        compute_confidence { cInpClamped with required_regeneration := true } = 3/20) := by
  refine ⟨rfl, rfl, conf_clamped_eval, conf_clamped_regen_eval, ?_⟩
  rw [conf_clamped_eval, conf_clamped_regen_eval]
  norm_num

theorem rawScore_penalty_eval : rawScore cInpPenalty = 19/20 := by
  unfold rawScore relevanceScore coverageScore sourceScore docScore penaltyOf cInpPenalty
  norm_num [min_def, max_def]

theorem regeneration_penalty_exact_witness :
    compute_confidence cInpPenalty -
      compute_confidence { cInpPenalty with required_regeneration := true } = 3/20 :=
  regeneration_penalty_exact_unclamped cInpPenalty rfl rfl
    (by rw [rawScore_penalty_eval]; norm_num)
    (by rw [rawScore_penalty_eval]; norm_num)
    (by
      rw [rawScore_penalty_eval]
      have h95 : (100 : ℚ) * (19/20) = ((95 : ℤ) : ℚ) := by norm_num
      rw [h95, Int.fract_intCast]
      norm_num)

/-- C7: compute_confidence stays below one tenth for valid citations
with no cited chunks only when additionally no pages are cited and the
retrieval scores are empty; num_chunks_cited = 0 alone does not bound
the confidence. -/
theorem zero_cited_confidence_lt_tenth (i : ConfidenceInputs)
    (hv : i.citation_valid = true) (hc : i.num_chunks_cited = 0)
    (hp : i.num_pages_cited = 0) (hs : i.retrieval_scores = []) :
    compute_confidence i < 1/10 := by
  have hrel : relevanceScore i = 0 := by
    unfold relevanceScore
    rw [hs]
    rfl
  have hcov : coverageScore i = 0 := by
    unfold coverageScore
    rw [hc]
    split
    · norm_num [min_def]
    · rfl
  have hsrc : sourceScore i = 0 := by
    unfold sourceScore
    rw [hp]
    norm_num
  have hdoc : docScore i ≤ 1/20 := by
    unfold docScore
    split
    · rename_i hcond
      rw [hc] at hcond
      omega
    · split
      · norm_num
      · norm_num
  have hpen : 0 ≤ penaltyOf i := by
    unfold penaltyOf
    split
    · norm_num
    · norm_num
  have hraw : rawScore i ≤ 1/20 := by
    unfold rawScore
    rw [hrel, hcov, hsrc]
    linarith
  have hclamp : max 0 (min (99/100) (rawScore i)) ≤ 1/20 := by
    apply max_le (by norm_num)
    calc min (99/100) (rawScore i) ≤ rawScore i := min_le_right _ _
      _ ≤ 1/20 := hraw
  unfold compute_confidence
  rw [hv]
  simp only [Bool.not_true, Bool.false_eq_true, if_false]
  unfold roundTo2
  have h100 : (100 : ℚ) * max 0 (min (99/100) (rawScore i)) ≤ ((5 : ℤ) : ℚ) := by
    push_cast
    linarith
  have hle := halfEvenRound_le_int _ 5 h100
  have hleq : ((halfEvenRound (100 * max 0 (min (99/100) (rawScore i))) : ℤ) : ℚ) ≤ 5 := by
    exact_mod_cast hle
  linarith

theorem zero_cited_confidence_cex :
    cInpC7.citation_valid = true ∧
    cInpC7.num_chunks_cited = 0 ∧
    compute_confidence cInpC7 = 13/20 ∧
    ¬ (compute_confidence cInpC7 < 1/10) := by
  have hraw : rawScore cInpC7 = 13/20 := by
    unfold rawScore relevanceScore coverageScore sourceScore docScore penaltyOf cInpC7
    norm_num [min_def, max_def]
  have hconf : compute_confidence cInpC7 = 13/20 := by
    have hval : cInpC7.citation_valid = true := rfl
    unfold compute_confidence
    rw [hval]
    simp only [Bool.not_true, Bool.false_eq_true, if_false]
    rw [hraw]
    have hmin : min (99/100 : ℚ) (13/20) = 13/20 := by norm_num [min_def]
    have hmax : max (0 : ℚ) (13/20) = 13/20 := by norm_num [max_def]
    rw [hmin, hmax]
    unfold roundTo2
    have h100 : (100 : ℚ) * (13/20) = ((65 : ℤ) : ℚ) := by norm_num
    rw [h100, halfEvenRound_intCast 65]
    norm_num
  refine ⟨rfl, rfl, hconf, ?_⟩
  rw [hconf]
  norm_num

theorem zero_cited_confidence_lt_tenth_witness :
    compute_confidence cInpC7W < 1/10 :=
  zero_cited_confidence_lt_tenth cInpC7W rfl rfl rfl rfl

/-- C10: for valid citations the confidence equals its own two-decimal
rounding: it is an integer number of hundredths between zero and
ninety-nine hundredths, so confidence differences are observable only
at hundredth granularity. -/
theorem confidence_two_decimal_granularity (i : ConfidenceInputs)
    (hv : i.citation_valid = true) :
    compute_confidence i = roundTo2 (compute_confidence i) ∧
    ∃ k : ℤ, compute_confidence i = (k : ℚ) / 100 ∧ 0 ≤ k ∧ k ≤ 99 := by
  have hlb : (0 : ℚ) ≤ max 0 (min (99/100) (rawScore i)) := le_max_left _ _
  have hub : max 0 (min (99/100) (rawScore i)) ≤ 99/100 :=
    max_le (by norm_num) (min_le_left _ _)
  have hconf : compute_confidence i =
      ((halfEvenRound (100 * max 0 (min (99/100) (rawScore i))) : ℤ) : ℚ) / 100 := by
    unfold compute_confidence
    rw [hv]
    simp only [Bool.not_true, Bool.false_eq_true, if_false]
    rfl
  constructor
  · rw [hconf]
    unfold roundTo2
    have : (100 : ℚ) *
        (((halfEvenRound (100 * max 0 (min (99/100) (rawScore i))) : ℤ) : ℚ) / 100) =
        ((halfEvenRound (100 * max 0 (min (99/100) (rawScore i))) : ℤ) : ℚ) := by
      field_simp
    rw [this, halfEvenRound_intCast]
  · refine ⟨halfEvenRound (100 * max 0 (min (99/100) (rawScore i))), hconf, ?_, ?_⟩
    · apply int_le_halfEvenRound
      push_cast
      linarith
    · apply halfEvenRound_le_int
      push_cast
      linarith

theorem confidence_two_decimal_granularity_witness :
    compute_confidence cInpPenalty = roundTo2 (compute_confidence cInpPenalty) ∧
    ∃ k : ℤ, compute_confidence cInpPenalty = (k : ℚ) / 100 ∧ 0 ≤ k ∧ k ≤ 99 :=
  confidence_two_decimal_granularity cInpPenalty rfl

theorem qaLoop_step (chunks : List ChunkContext) (gen : ℕ → GenerationResult)
    (a : ℕ) (rest : List ℕ) (lastErr : Option Str)
    (h : (gen a).success = false ∨
      (validate_and_fix_citations (gen a).answer chunks).valid = false) :
    qaLoop chunks gen (a :: rest) lastErr =
      qaLoop chunks gen rest
        (if (gen a).success then
          (validate_and_fix_citations (gen a).answer chunks).error
        else (gen a).error) := by
  cases hsucc : (gen a).success with
  | false => simp [qaLoop, hsucc]
  | true =>
    rcases h with h | h
    · rw [hsucc] at h
      simp at h
    · simp [qaLoop, hsucc, h]

theorem mdLoop_step (r : MultiDocRetrievalResult)
    (all_chunks : List DocumentChunkContext) (all_scores : List ℚ)
    (llm : ℕ → LLMResult) (a : ℕ) (rest : List ℕ) (regen : Bool)
    (h : (llm a).success = false ∨
      (validate_and_fix_citations (llm a).text
        (all_chunks.map toChunkContext)).valid = false) :
    mdLoop r all_chunks all_scores llm (a :: rest) regen =
      mdLoop r all_chunks all_scores llm rest
        (if (llm a).success then true else regen) := by
  cases hsucc : (llm a).success with
  | false => simp [mdLoop, hsucc]
  | true =>
    rcases h with h | h
    · rw [hsucc] at h
      simp at h
    · simp [mdLoop, hsucc, h]

/-- C2: with a non-empty chunk list, when every attempt fails or
validates invalid, answer_question returns success = false with empty
answer, sources and cited_pages and records the last error; the
multi-document variant also hard-fails with no partial answer, but
returns a fixed message instead of recording the last error. -/
theorem retries_exhausted_hard_failure
    (chunks : List ChunkContext) (gen : ℕ → GenerationResult)
    (r : MultiDocRetrievalResult) (llm : ℕ → LLMResult)
    (hne : ¬ chunks.isEmpty = true)
    (hgen : ∀ a, a < MAX_RETRIES + 1 → (gen a).success = false ∨
      (validate_and_fix_citations (gen a).answer chunks).valid = false)
    (hmd : ¬ totalChunks r = 0)
    (hllm : ∀ a, a < 3 → (llm a).success = false ∨
      (validate_and_fix_citations (llm a).text
        ((build_multi_doc_context r).2.1.map toChunkContext)).valid = false) :
    answer_question chunks gen =
      { answer := [], sources := [], cited_pages := [], success := false,
        error := some ("Failed to generate valid answer: ".data ++
          pyOptionStr (lastAttemptError chunks gen)) } ∧
    generate_multi_doc_answer r llm =
      { answer := [], sources := [], cited_pages := [], confidence := 0,
        success := false,
        error := some "Failed to generate valid answer after retries".data,
        required_regeneration := true } := by
  constructor
  · unfold answer_question
    rw [if_neg hne]
    have hrange : List.range (MAX_RETRIES + 1) = [0, 1, 2] := rfl
    rw [hrange]
    rw [qaLoop_step chunks gen 0 _ _ (hgen 0 (by decide)),
        qaLoop_step chunks gen 1 _ _ (hgen 1 (by decide)),
        qaLoop_step chunks gen 2 _ _ (hgen 2 (by decide))]
    unfold qaLoop qaFailResult lastAttemptError MAX_RETRIES
    rfl
  · unfold generate_multi_doc_answer
    rw [if_neg hmd]
    show mdLoop r (build_multi_doc_context r).2.1
      (r.scores_by_doc.foldl (fun acc e => acc ++ e.2) []) llm (List.range 3) false =
      _
    have hrange : List.range 3 = [0, 1, 2] := rfl
    rw [hrange]
    rw [mdLoop_step r _ _ llm 0 _ _ (hllm 0 (by omega)),
        mdLoop_step r _ _ llm 1 _ _ (hllm 1 (by omega)),
        mdLoop_step r _ _ llm 2 _ _ (hllm 2 (by omega))]
    unfold mdLoop mdFailResult
    rfl

theorem retries_exhausted_hard_failure_witness :
    answer_question exChunks25 (constGen exAnsMerge25) =
      { answer := [], sources := [], cited_pages := [], success := false,
        error := some ("Failed to generate valid answer: ".data ++
          pyOptionStr (lastAttemptError exChunks25 (constGen exAnsMerge25))) } ∧
    generate_multi_doc_answer exRetrieval25 (constLLM exAnsMerge25) =
      { answer := [], sources := [], cited_pages := [], confidence := 0,
        success := false,
        error := some "Failed to generate valid answer after retries".data,
        required_regeneration := true } :=
  retries_exhausted_hard_failure exChunks25 (constGen exAnsMerge25)
    exRetrieval25 (constLLM exAnsMerge25)
    (by decide)
    (fun _ _ => Or.inr (by
      have h : (validate_and_fix_citations exAnsMerge25 exChunks25).valid = false := by
        decide
      exact h))
    (by decide)
    (fun _ _ => Or.inr (by
      have h : (validate_and_fix_citations exAnsMerge25
          ((build_multi_doc_context exRetrieval25).2.1.map toChunkContext)).valid
          = false := by decide
      exact h))

theorem multi_doc_error_not_recorded :
    (generate_multi_doc_answer exRetrieval25 (constLLM exAnsMerge25)).success = false ∧
    (validate_and_fix_citations (constLLM exAnsMerge25 2).text
      ((build_multi_doc_context exRetrieval25).2.1.map toChunkContext)).error =
      some "Invalid citations remain: [3, 4]".data ∧
    (generate_multi_doc_answer exRetrieval25 (constLLM exAnsMerge25)).error =
      some "Failed to generate valid answer after retries".data ∧
    (generate_multi_doc_answer exRetrieval26 (constLLM exAnsMerge26)).error =
      some "Failed to generate valid answer after retries".data ∧
    (validate_and_fix_citations (constLLM exAnsMerge26 2).text
      ((build_multi_doc_context exRetrieval26).2.1.map toChunkContext)).error =
      some "Invalid citations remain: [3, 4, 5]".data ∧
    containsStr "Invalid citations remain".data
      "Failed to generate valid answer after retries".data = false := by
  refine ⟨by decide, by decide, by decide, by decide, by decide, by decide⟩

theorem mem_dictSet {α : Type} {d : List (ℕ × α)} {k : ℕ} {v : α} {e : ℕ × α}
    (h : e ∈ dictSet d k v) : e = (k, v) ∨ e ∈ d := by
  unfold dictSet at h
  split at h
  · rcases List.mem_map.mp h with ⟨x, hx, hxe⟩
    by_cases hk : x.1 = k
    · rw [if_pos hk] at hxe
      exact Or.inl hxe.symm
    · rw [if_neg hk] at hxe
      exact Or.inr (hxe ▸ hx)
  · rcases List.mem_append.mp h with h | h
    · exact Or.inr h
    · simp only [List.mem_singleton] at h
      exact Or.inl h

theorem dictGet_eq_none_of_keys {α : Type} {d : List (ℕ × α)} {k : ℕ}
    (h : ∀ e ∈ d, ¬ e.1 = k) : dictGet d k = none := by
  unfold dictGet
  rw [List.find?_eq_none.mpr]
  · rfl
  · intro e he
    simp [h e he]

theorem dictGet_filterOutKey_ne {α : Type} (B : ℕ) (d : List (ℕ × α)) (k : ℕ)
    (hk : ¬ k = B) : dictGet (filterOutKey B d) k = dictGet d k := by
  induction d with
  | nil => rfl
  | cons e rest ih =>
    by_cases hb : e.1 = B
    · have hstep : filterOutKey B (e :: rest) = filterOutKey B rest := by
        simp [filterOutKey, List.filter_cons, hb]
      have hek : ¬ e.1 = k := by
        rw [hb]
        exact fun hcon => hk hcon.symm
      rw [hstep, ih]
      unfold dictGet
      rw [List.find?_cons_of_neg _ (by simpa using hek)]
    · have hstep : filterOutKey B (e :: rest) = e :: filterOutKey B rest := by
        simp [filterOutKey, List.filter_cons, hb]
      rw [hstep]
      unfold dictGet
      by_cases hke : e.1 = k
      · rw [List.find?_cons_of_pos _ (by simpa using hke),
            List.find?_cons_of_pos _ (by simpa using hke)]
      · rw [List.find?_cons_of_neg _ (by simpa using hke),
            List.find?_cons_of_neg _ (by simpa using hke)]
        exact ih

theorem filter_map_keyPreserving {α : Type} (B : ℕ) (f : (ℕ × α) → (ℕ × α))
    (hf : ∀ e, (f e).1 = e.1) (d : List (ℕ × α)) :
    (d.map f).filter (fun e => !decide (e.1 = B)) =
      (d.filter (fun e => !decide (e.1 = B))).map f := by
  induction d with
  | nil => rfl
  | cons e rest ih =>
    simp only [List.map_cons, List.filter_cons, hf e]
    by_cases hb : e.1 = B
    · simp [hb, ih]
    · simp [hb, ih]

theorem any_filterOutKey_key {α : Type} (B : ℕ) (d : List (ℕ × α)) (k : ℕ)
    (hk : ¬ k = B) :
    (filterOutKey B d).any (fun e => e.1 = k) = d.any (fun e => e.1 = k) := by
  induction d with
  | nil => rfl
  | cons e rest ih =>
    unfold filterOutKey at ih ⊢
    simp only [List.filter_cons]
    by_cases hb : e.1 = B
    · have hek : ¬ e.1 = k := by
        rw [hb]
        exact fun hcon => hk hcon.symm
      have h1 : (!decide (e.1 = B)) = false := by simp [hb]
      rw [h1]
      simp only [Bool.false_eq_true, if_false]
      rw [ih, List.any_cons]
      simp [hek]
    · have h1 : (!decide (e.1 = B)) = true := by simp [hb]
      rw [h1]
      simp only [if_true]
      rw [List.any_cons, List.any_cons, ih]

theorem filter_map_updB {α : Type} (B : ℕ) (v : α) (d : List (ℕ × α)) :
    ((d.map (fun e => if e.1 = B then (B, v) else e)).filter
        (fun e => !decide (e.1 = B))) =
      d.filter (fun e => !decide (e.1 = B)) := by
  induction d with
  | nil => rfl
  | cons e rest ih =>
    simp only [List.map_cons, List.filter_cons]
    by_cases hb : e.1 = B
    · rw [if_pos hb]
      simp [hb, ih]
    · rw [if_neg hb]
      simp [hb, ih]

theorem filterOutKey_dictSet_ne {α : Type} (B : ℕ) (d : List (ℕ × α)) (k : ℕ) (v : α)
    (hk : ¬ k = B) :
    filterOutKey B (dictSet d k v) = dictSet (filterOutKey B d) k v := by
  unfold dictSet
  by_cases hany : d.any (fun e => e.1 = k) = true
  · rw [if_pos hany, if_pos (by rw [any_filterOutKey_key B d k hk]; exact hany)]
    unfold filterOutKey
    apply filter_map_keyPreserving
    intro e
    by_cases he : e.1 = k <;> simp [he]
  · rw [if_neg hany, if_neg (by rw [any_filterOutKey_key B d k hk]; exact hany)]
    unfold filterOutKey
    rw [List.filter_append]
    simp [hk]

theorem filterOutKey_dictSet_self {α : Type} (B : ℕ) (d : List (ℕ × α)) (v : α) :
    filterOutKey B (dictSet d B v) = filterOutKey B d := by
  unfold dictSet
  split
  · unfold filterOutKey
    exact filter_map_updB B v d
  · unfold filterOutKey
    rw [List.filter_append]
    simp

/-- The first component of a fold over pairs whose first-component update
ignores the second component. -/
theorem pairFold_fst {γ σ τ : Type} (f1 : σ → γ → σ) (f2 : σ → τ → γ → τ) :
    ∀ (L : List γ) (acc : σ × τ),
      (L.foldl (fun a e => (f1 a.1 e, f2 a.1 a.2 e)) acc).1 = L.foldl f1 acc.1 := by
  intro L
  induction L with
  | nil => intro acc; rfl
  | cons e rest ih =>
    intro acc
    simp only [List.foldl_cons]
    exact ih (f1 acc.1 e, f2 acc.1 acc.2 e)

/-- A key predicate invariant for dictionary-insertion folds. -/
theorem dictSetFoldKey_keys {γ β : Type} (P : ℕ → Prop) (κ : γ → ℕ)
    (g : List (ℕ × β) → γ → β) :
    ∀ (L : List γ) (acc : List (ℕ × β)),
      (∀ p ∈ L, P (κ p)) → (∀ e ∈ acc, P e.1) →
      ∀ e ∈ L.foldl (fun a p => dictSet a (κ p) (g a p)) acc, P e.1 := by
  intro L
  induction L with
  | nil => intro acc _ hacc e he; exact hacc e he
  | cons p rest ih =>
    intro acc hL hacc e he
    simp only [List.foldl_cons] at he
    refine ih (dictSet acc (κ p) (g acc p))
      (fun q hq => hL q (List.mem_cons_of_mem p hq)) ?_ e he
    intro f hf
    rcases mem_dictSet hf with hf | hf
    · have hp : P (κ p) := hL p (List.mem_cons_self p rest)
      rw [hf]
      exact hp
    · exact hacc f hf

/-- Restricting to keys different from B commutes with a
dictionary-insertion fold whose values ignore the accumulator. -/
theorem filterOutKey_dictInsertFold {γ β : Type} (B : ℕ) (κ : γ → ℕ) (g : γ → β) :
    ∀ (L : List γ) (acc : List (ℕ × β)),
      filterOutKey B (L.foldl (fun a p => dictSet a (κ p) (g p)) acc) =
        (L.filter (fun p => !decide (κ p = B))).foldl
          (fun a p => dictSet a (κ p) (g p)) (filterOutKey B acc) := by
  intro L
  induction L with
  | nil => intro acc; rfl
  | cons p rest ih =>
    intro acc
    simp only [List.foldl_cons, List.filter_cons]
    by_cases hb : κ p = B
    · have h1 : (!decide (κ p = B)) = false := by simp [hb]
      rw [h1]
      simp only [Bool.false_eq_true, if_false]
      rw [ih, hb, filterOutKey_dictSet_self]
    · have h1 : (!decide (κ p = B)) = true := by simp [hb]
      rw [h1]
      simp only [if_true, List.foldl_cons]
      rw [ih, filterOutKey_dictSet_ne B acc (κ p) (g p) hb]

/-- Restricting to keys different from B commutes with the fold building
results_map: failed entries are skipped either way. -/
theorem filterOutKey_resultsFold (B : ℕ) :
    ∀ (L : List (ℕ × Except Str (List (ℕ × ℚ × ℕ))))
      (acc : List (ℕ × List (ℕ × ℚ × ℕ))),
      filterOutKey B (L.foldl resultsStep acc) =
        (L.filter (fun e => !decide (e.1 = B))).foldl resultsStep
          (filterOutKey B acc) := by
  intro L
  induction L with
  | nil => intro acc; rfl
  | cons p rest ih =>
    intro acc
    simp only [List.foldl_cons, List.filter_cons]
    by_cases hb : p.1 = B
    · have h1 : (!decide (p.1 = B)) = false := by simp [hb]
      rw [h1]
      simp only [Bool.false_eq_true, if_false]
      cases hp : p.2 with
      | error err =>
        have hstep : resultsStep acc p = acc := by
          unfold resultsStep
          rw [hp]
        rw [hstep, ih]
      | ok res =>
        have hstep : resultsStep acc p = dictSet acc p.1 res := by
          unfold resultsStep
          rw [hp]
        rw [hstep, ih, hb, filterOutKey_dictSet_self]
    · have h1 : (!decide (p.1 = B)) = true := by simp [hb]
      rw [h1]
      simp only [if_true, List.foldl_cons]
      cases hp : p.2 with
      | error err =>
        have hstep : ∀ (d : List (ℕ × List (ℕ × ℚ × ℕ))), resultsStep d p = d := by
          intro d
          unfold resultsStep
          rw [hp]
        rw [hstep, hstep, ih]
      | ok res =>
        have hstep : ∀ (d : List (ℕ × List (ℕ × ℚ × ℕ))),
            resultsStep d p = dictSet d p.1 res := by
          intro d
          unfold resultsStep
          rw [hp]
        rw [hstep, hstep, ih, filterOutKey_dictSet_ne B acc p.1 res hb]

/-- Every entry of the results_map fold comes from a successful search
result or from the initial accumulator. -/
theorem resultsFold_mem :
    ∀ (L : List (ℕ × Except Str (List (ℕ × ℚ × ℕ))))
      (acc : List (ℕ × List (ℕ × ℚ × ℕ))) (e : ℕ × List (ℕ × ℚ × ℕ)),
      e ∈ L.foldl resultsStep acc → (e.1, Except.ok e.2) ∈ L ∨ e ∈ acc := by
  intro L
  induction L with
  | nil => intro acc e he; exact Or.inr he
  | cons p rest ih =>
    intro acc e he
    simp only [List.foldl_cons] at he
    cases hp : p.2 with
    | error err =>
      have hstep : resultsStep acc p = acc := by
        unfold resultsStep
        rw [hp]
      rw [hstep] at he
      rcases ih acc e he with h | h
      · exact Or.inl (List.mem_cons_of_mem p h)
      · exact Or.inr h
    | ok res =>
      have hstep : resultsStep acc p = dictSet acc p.1 res := by
        unfold resultsStep
        rw [hp]
      rw [hstep] at he
      rcases ih _ e he with h | h
      · exact Or.inl (List.mem_cons_of_mem p h)
      · rcases mem_dictSet h with h | h
        · left
          rw [h]
          show (p.1, Except.ok res) ∈ p :: rest
          rw [← hp]
          exact List.mem_cons_self p rest
        · exact Or.inr h

/-- Keys of the results_map fold avoid B when L never succeeds at B. -/
theorem resultsFold_keys_ne (B : ℕ) :
    ∀ (L : List (ℕ × Except Str (List (ℕ × ℚ × ℕ))))
      (acc : List (ℕ × List (ℕ × ℚ × ℕ))),
      (∀ p ∈ L, p.1 = B → ∀ res, ¬ p.2 = Except.ok res) →
      (∀ e ∈ acc, ¬ e.1 = B) →
      ∀ e ∈ L.foldl resultsStep acc, ¬ e.1 = B := by
  intro L
  induction L with
  | nil => intro acc _ hacc e he; exact hacc e he
  | cons p rest ih =>
    intro acc hL hacc e he
    simp only [List.foldl_cons] at he
    cases hp : p.2 with
    | error err =>
      have hstep : resultsStep acc p = acc := by
        unfold resultsStep
        rw [hp]
      rw [hstep] at he
      exact ih acc (fun q hq => hL q (List.mem_cons_of_mem p hq)) hacc e he
    | ok res =>
      have hstep : resultsStep acc p = dictSet acc p.1 res := by
        unfold resultsStep
        rw [hp]
      rw [hstep] at he
      refine ih _ (fun q hq => hL q (List.mem_cons_of_mem p hq)) ?_ e he
      intro f hf
      rcases mem_dictSet hf with hf | hf
      · have hpb : ¬ p.1 = B :=
          fun hb => hL p (List.mem_cons_self p rest) hb res hp
        rw [hf]
        exact hpb
      · exact hacc f hf

/-- Membership in all_chunk_ids is preserved by further fold steps. -/
theorem idsFold_sub :
    ∀ (L : List (ℕ × Except Str (List (ℕ × ℚ × ℕ)))) (acc : List ℕ) (x : ℕ),
      x ∈ acc → x ∈ L.foldl idsStep acc := by
  intro L
  induction L with
  | nil => intro acc x hx; exact hx
  | cons p rest ih =>
    intro acc x hx
    simp only [List.foldl_cons]
    refine ih _ x ?_
    unfold idsStep
    cases p.2 with
    | error err => exact hx
    | ok res => exact List.mem_append_left _ hx

/-- Every chunk id of a successful result appears in all_chunk_ids. -/
theorem idsFold_mem :
    ∀ (L : List (ℕ × Except Str (List (ℕ × ℚ × ℕ)))) (acc : List ℕ)
      (d : ℕ) (res : List (ℕ × ℚ × ℕ)) (r : ℕ × ℚ × ℕ),
      (d, Except.ok res) ∈ L → r ∈ res → r.1 ∈ L.foldl idsStep acc := by
  intro L
  induction L with
  | nil => intro acc d res r h _; exact absurd h (List.not_mem_nil _)
  | cons p rest ih =>
    intro acc d res r hmem hr
    simp only [List.foldl_cons]
    rcases List.mem_cons.mp hmem with hmem | hmem
    · apply idsFold_sub
      have hstep : idsStep acc p = acc ++ res.map (fun q => q.1) := by
        unfold idsStep
        rw [← hmem]
      rw [hstep]
      exact List.mem_append_right _ (List.mem_map.mpr ⟨r, hr, rfl⟩)
    · exact ih _ d res r hmem hr

/-- The second component of an entry of enumFrom is an element of the
underlying list. -/
theorem mem_enumFrom_snd {α : Type} :
    ∀ (l : List α) (n : ℕ) (p : ℕ × α), p ∈ l.enumFrom n → p.2 ∈ l := by
  intro l
  induction l with
  | nil => intro n p h; exact absurd h (List.not_mem_nil p)
  | cons a rest ih =>
    intro n p h
    rw [List.enumFrom_cons] at h
    rcases List.mem_cons.mp h with h | h
    · rw [h]
      exact List.mem_cons_self a rest
    · exact List.mem_cons_of_mem a (ih (n + 1) p h)

/-- One document entry depends on the lookup function only at the chunk
ids of its results. -/
theorem buildDocEntry_congr (lookup1 lookup2 : ℕ → Option ChunkRec)
    (doc_names : List (ℕ × Str)) (e : ℕ × List (ℕ × ℚ × ℕ))
    (h : ∀ r ∈ e.2, lookup1 r.1 = lookup2 r.1) :
    buildDocEntry lookup1 doc_names e = buildDocEntry lookup2 doc_names e := by
  unfold buildDocEntry
  refine List.foldl_ext _ _ _ ?_
  intro acc r hr
  rw [h r hr]

/-- The figure-chunk merge preserves equality of the dictionaries away
from key B, provided no figure entry has key B. -/
theorem mergeChunksFold_filter (B : ℕ) :
    ∀ (FC : List (ℕ × List DocumentChunkContext))
      (acc1 acc2 : List (ℕ × List DocumentChunkContext)),
      (∀ p ∈ FC, ¬ p.1 = B) →
      filterOutKey B acc1 = filterOutKey B acc2 →
      filterOutKey B (FC.foldl
          (fun a p => dictSet a p.1 ((dictGet a p.1).getD [] ++ p.2)) acc1) =
        filterOutKey B (FC.foldl
          (fun a p => dictSet a p.1 ((dictGet a p.1).getD [] ++ p.2)) acc2) := by
  intro FC
  induction FC with
  | nil => intro acc1 acc2 _ h; exact h
  | cons p rest ih =>
    intro acc1 acc2 hk h
    simp only [List.foldl_cons]
    have hpB : ¬ p.1 = B := hk p (List.mem_cons_self p rest)
    have hg : dictGet acc1 p.1 = dictGet acc2 p.1 := by
      rw [← dictGet_filterOutKey_ne B acc1 p.1 hpB,
          ← dictGet_filterOutKey_ne B acc2 p.1 hpB, h]
    refine ih _ _ (fun q hq => hk q (List.mem_cons_of_mem p hq)) ?_
    rw [filterOutKey_dictSet_ne B acc1 p.1 _ hpB,
        filterOutKey_dictSet_ne B acc2 p.1 _ hpB, h, hg]

/-- Away from document B, the sequences of kept search outcomes are
identical when the two search functions agree off B. -/
theorem retrievalResults_filter_eq (env : RetrieveEnv)
    (s2 : ℕ → Except Str (List (ℕ × ℚ × ℕ))) (B : ℕ)
    (hs2 : ∀ d, ¬ d = B → s2 d = env.search d) (ids : List ℕ) :
    (retrievalResultsOf { env with search := s2 } ids).filter
        (fun e => !decide (e.1 = B)) =
      (retrievalResultsOf env ids).filter (fun e => !decide (e.1 = B)) := by
  unfold retrievalResultsOf
  induction ids with
  | nil => rfl
  | cons d rest ih =>
    simp only [List.map_cons, List.filter_cons]
    by_cases hb : d = B
    · have c1 : (!decide ((d, ({ env with search := s2 } :
          RetrieveEnv).search d).1 = B)) = false := by simp [hb]
      rw [c1]
      simp only [Bool.false_eq_true, if_false]
      exact ih
    · have c1 : (!decide ((d, ({ env with search := s2 } :
          RetrieveEnv).search d).1 = B)) = true := by simp [hb]
      rw [c1]
      simp only [if_true]
      rw [hs2 d hb, ih]

/-- Keys of the figure-chunk dictionary are document ids of true
figures. -/
theorem figureChunksOf_keys (env : RetrieveEnv) (doc_names : List (ℕ × Str))
    (is_image : Bool) (ids : List ℕ) (B : ℕ)
    (hfig : ∀ f ∈ env.figures, ¬ f.document_id = B) :
    ∀ e ∈ figureChunksOf env doc_names is_image ids, ¬ e.1 = B := by
  unfold figureChunksOf
  cases is_image with
  | false => intro e he; exact absurd he (List.not_mem_nil e)
  | true =>
    intro e he
    refine dictSetFoldKey_keys (fun k => ¬ k = B) (fun p => p.2.document_id)
      (fun a p => (dictGet a p.2.document_id).getD [] ++ [synFigureOf env doc_names p])
      _ [] ?_ ?_ e he
    · intro p hp
      exact hfig p.2 (List.mem_of_mem_filter (mem_enumFrom_snd _ 0 p hp))
    · intro f hf
      exact absurd hf (List.not_mem_nil f)

/-- The chunk dictionary of the figure merge, as a fold over the first
components. -/
theorem mergeFigures_fst (env : RetrieveEnv)
    (FC : List (ℕ × List DocumentChunkContext))
    (base : List (ℕ × List DocumentChunkContext) × List (ℕ × List ℚ)) :
    (mergeFigures env FC base).1 =
      if FC.isEmpty then base.1
      else FC.foldl
        (fun a p => dictSet a p.1 ((dictGet a p.1).getD [] ++ p.2)) base.1 := by
  unfold mergeFigures
  by_cases h : FC.isEmpty
  · rw [if_pos h, if_pos h]
  · rw [if_neg h, if_neg h]
    exact pairFold_fst
      (fun a p => dictSet a p.1 ((dictGet a p.1).getD [] ++ p.2))
      (fun _ a2 p => dictSet a2 p.1 ((dictGet a2 p.1).getD [] ++
        figScoresOf env (queryEmbOpt env) p.2))
      FC base

/-- The base chunk dictionary, as a fold over the first components. -/
theorem baseDictsOf_fst (lookup : ℕ → Option ChunkRec)
    (doc_names : List (ℕ × Str))
    (results_map : List (ℕ × List (ℕ × ℚ × ℕ))) :
    (baseDictsOf lookup doc_names results_map).1 =
      results_map.foldl
        (fun a e => dictSet a e.1 (buildDocEntry lookup doc_names e).1) [] := by
  unfold baseDictsOf
  exact pairFold_fst
    (fun a e => dictSet a e.1 (buildDocEntry lookup doc_names e).1)
    (fun _ a2 e => dictSet a2 e.1 (buildDocEntry lookup doc_names e).2)
    results_map ([], [])

/-- Every key of the assembled chunk dictionary differs from a document
whose search failed, when that document has no extracted figures. -/
theorem retrieveDicts_keys_ne (env : RetrieveEnv) (question : Str)
    (ids : List ℕ) (B : ℕ) (err : Str)
    (hB : env.search B = Except.error err)
    (hnofig : ∀ f ∈ env.figures, ¬ f.document_id = B) :
    ∀ e ∈ (retrieveDicts env question ids).1, ¬ e.1 = B := by
  have hrr : ∀ p ∈ retrievalResultsOf env ids, p.1 = B →
      ∀ res, ¬ p.2 = Except.ok res := by
    intro p hp hb res hok
    unfold retrievalResultsOf at hp
    rcases List.mem_map.mp hp with ⟨d, _, hde⟩
    rw [← hde] at hb hok
    have hb2 : d = B := hb
    have hok2 : env.search d = Except.ok res := hok
    rw [hb2, hB] at hok2
    exact Except.noConfusion hok2
  have hkeys_rm : ∀ e ∈ resultsMapOf (retrievalResultsOf env ids),
      ¬ e.1 = B := by
    intro e he
    exact resultsFold_keys_ne B _ [] hrr
      (fun f hf => absurd hf (List.not_mem_nil f)) e he
  have hkeys_base : ∀ e ∈ (baseDictsOf (chunkMapOf env (allChunkIdsOf
      (retrievalResultsOf env ids))) (docNamesOf env ids)
      (resultsMapOf (retrievalResultsOf env ids))).1, ¬ e.1 = B := by
    rw [baseDictsOf_fst]
    exact dictSetFoldKey_keys (fun k => ¬ k = B) (fun e => e.1)
      (fun _ e => (buildDocEntry (chunkMapOf env (allChunkIdsOf
        (retrievalResultsOf env ids))) (docNamesOf env ids) e).1)
      _ [] hkeys_rm (fun f hf => absurd hf (List.not_mem_nil f))
  intro e he
  unfold retrieveDicts at he
  rw [mergeFigures_fst] at he
  by_cases hemp : (figureChunksOf env (docNamesOf env ids)
      (is_likely_image_question question) ids).isEmpty
  · rw [if_pos hemp] at he
    exact hkeys_base e he
  · rw [if_neg hemp] at he
    exact dictSetFoldKey_keys (fun k => ¬ k = B)
      (fun p : ℕ × List DocumentChunkContext => p.1)
      (fun (a : List (ℕ × List DocumentChunkContext))
        (p : ℕ × List DocumentChunkContext) => (dictGet a p.1).getD [] ++ p.2) _ _
      (figureChunksOf_keys env (docNamesOf env ids)
        (is_likely_image_question question) ids B hnofig)
      hkeys_base e he

/-- The filtered base chunk dictionary of one run, rewritten as a fold
over the kept search outcomes with the unrestricted content lookup. -/
theorem baseFold_filter (e2 : RetrieveEnv) (ids : List ℕ) (B : ℕ) :
    filterOutKey B ((resultsMapOf (retrievalResultsOf e2 ids)).foldl
        (fun a e => dictSet a e.1 (buildDocEntry (chunkMapOf e2
          (allChunkIdsOf (retrievalResultsOf e2 ids)))
          (docNamesOf e2 ids) e).1) []) =
      (((retrievalResultsOf e2 ids).filter (fun e => !decide (e.1 = B))).foldl
        resultsStep []).foldl
        (fun a e => dictSet a e.1 (buildDocEntry e2.dbChunks
          (docNamesOf e2 ids) e).1) [] := by
  have hcongr : ∀ e ∈ resultsMapOf (retrievalResultsOf e2 ids),
      (buildDocEntry (chunkMapOf e2 (allChunkIdsOf (retrievalResultsOf e2 ids)))
        (docNamesOf e2 ids) e).1 =
      (buildDocEntry e2.dbChunks (docNamesOf e2 ids) e).1 := by
    intro e he
    have hlk : ∀ r ∈ e.2, chunkMapOf e2
        (allChunkIdsOf (retrievalResultsOf e2 ids)) r.1 = e2.dbChunks r.1 := by
      intro r hr
      have hmem : (e.1, Except.ok e.2) ∈ retrievalResultsOf e2 ids := by
        rcases resultsFold_mem (retrievalResultsOf e2 ids) [] e he with h | h
        · exact h
        · exact absurd h (List.not_mem_nil e)
      have hid : r.1 ∈ allChunkIdsOf (retrievalResultsOf e2 ids) :=
        idsFold_mem (retrievalResultsOf e2 ids) [] e.1 e.2 r hmem hr
      unfold chunkMapOf
      rw [if_pos hid]
    rw [buildDocEntry_congr _ _ _ e hlk]
  rw [List.foldl_ext
      (fun a e => dictSet a e.1 (buildDocEntry (chunkMapOf e2
        (allChunkIdsOf (retrievalResultsOf e2 ids))) (docNamesOf e2 ids) e).1)
      (fun a e => dictSet a e.1 (buildDocEntry e2.dbChunks
        (docNamesOf e2 ids) e).1)
      [] (fun a e he => congrArg (dictSet a e.1) (hcongr e he))]
  rw [filterOutKey_dictInsertFold B (fun e => e.1)
      (fun e => (buildDocEntry e2.dbChunks (docNamesOf e2 ids) e).1)
      (resultsMapOf (retrievalResultsOf e2 ids)) []]
  have hrm : (resultsMapOf (retrievalResultsOf e2 ids)).filter
      (fun e => !decide (e.1 = B)) =
      ((retrievalResultsOf e2 ids).filter (fun e => !decide (e.1 = B))).foldl
        resultsStep [] := filterOutKey_resultsFold B (retrievalResultsOf e2 ids) []
  rw [hrm]
  rfl

/-- Away from a key whose search failed in neither run in a relevant way,
the base chunk dictionaries agree when the search functions agree off
that key. -/
theorem baseDicts_filter_agree (env : RetrieveEnv)
    (s2 : ℕ → Except Str (List (ℕ × ℚ × ℕ))) (ids : List ℕ) (B : ℕ)
    (hs2 : ∀ d, ¬ d = B → s2 d = env.search d) :
    filterOutKey B (baseDictsOf (chunkMapOf env (allChunkIdsOf
        (retrievalResultsOf env ids))) (docNamesOf env ids)
        (resultsMapOf (retrievalResultsOf env ids))).1 =
      filterOutKey B (baseDictsOf (chunkMapOf { env with search := s2 }
        (allChunkIdsOf (retrievalResultsOf { env with search := s2 } ids)))
        (docNamesOf { env with search := s2 } ids)
        (resultsMapOf (retrievalResultsOf { env with search := s2 } ids))).1 := by
  rw [baseDictsOf_fst, baseDictsOf_fst, baseFold_filter env ids B,
      baseFold_filter { env with search := s2 } ids B,
      retrievalResults_filter_eq env s2 B hs2 ids]
  rfl

/-- Away from a document with no figures, the assembled chunk
dictionaries of two runs agree when the search functions agree off that
document. -/
theorem retrieveDicts_filter_agree (env : RetrieveEnv)
    (s2 : ℕ → Except Str (List (ℕ × ℚ × ℕ))) (question : Str)
    (ids : List ℕ) (B : ℕ)
    (hs2 : ∀ d, ¬ d = B → s2 d = env.search d)
    (hnofig : ∀ f ∈ env.figures, ¬ f.document_id = B) :
    filterOutKey B (retrieveDicts env question ids).1 =
      filterOutKey B (retrieveDicts { env with search := s2 } question ids).1 := by
  unfold retrieveDicts
  rw [mergeFigures_fst, mergeFigures_fst]
  have hFCeq : figureChunksOf { env with search := s2 }
      (docNamesOf { env with search := s2 } ids)
      (is_likely_image_question question) ids =
      figureChunksOf env (docNamesOf env ids)
        (is_likely_image_question question) ids := rfl
  rw [hFCeq]
  by_cases hemp : (figureChunksOf env (docNamesOf env ids)
      (is_likely_image_question question) ids).isEmpty
  · rw [if_pos hemp, if_pos hemp]
    exact baseDicts_filter_agree env s2 ids B hs2
  · rw [if_neg hemp, if_neg hemp]
    exact mergeChunksFold_filter B _ _ _
      (figureChunksOf_keys env (docNamesOf env ids)
        (is_likely_image_question question) ids B hnofig)
      (baseDicts_filter_agree env s2 ids B hs2)

/-- C6: when the index query for document B raises while the other
documents succeed, the failing document contributes no chunks_by_doc
entry and the other documents get exactly the entries they would get
under a search that succeeds at B — provided B has no extracted figures
(figure augmentation on image questions can otherwise add a synthetic
entry for the failed document, refuting the unconditional claim). -/
theorem retrieval_failure_isolated (env : RetrieveEnv)
    (s2 : ℕ → Except Str (List (ℕ × ℚ × ℕ))) (question : Str)
    (ids : List ℕ) (B : ℕ) (err : Str)
    (hB : env.search B = Except.error err)
    (hs2 : ∀ d, ¬ d = B → s2 d = env.search d)
    (hnofig : ∀ f ∈ env.figures, ¬ f.document_id = B) :
    dictGet (retrieve_from_documents env question ids).chunks_by_doc B = none ∧
    ∀ d, ¬ d = B →
      dictGet (retrieve_from_documents env question ids).chunks_by_doc d =
        dictGet (retrieve_from_documents { env with search := s2 }
          question ids).chunks_by_doc d := by
  constructor
  · exact dictGet_eq_none_of_keys
      (retrieveDicts_keys_ne env question ids B err hB hnofig)
  · intro d hd
    show dictGet (retrieveDicts env question ids).1 d =
      dictGet (retrieveDicts { env with search := s2 } question ids).1 d
    rw [← dictGet_filterOutKey_ne B (retrieveDicts env question ids).1 d hd,
        ← dictGet_filterOutKey_ne B
          (retrieveDicts { env with search := s2 } question ids).1 d hd,
        retrieveDicts_filter_agree env s2 question ids B hs2 hnofig]

/-- On an image question, the figure-augmentation stage creates a
chunks_by_doc entry for a document whose index query raised, so the
failing document's entry is neither absent nor empty. -/
theorem failed_doc_figure_entry_cex :
    envFig.search 2 = Except.error "boom".data ∧
    (dictGet (retrieve_from_documents envFig exQuestionImage
      [1, 2]).chunks_by_doc 2).isSome = true := by
  exact ⟨rfl, by decide⟩

theorem retrieval_failure_isolated_witness :
    dictGet (retrieve_from_documents envIso exQuestionPlain
      [1, 2]).chunks_by_doc 2 = none ∧
    dictGet (retrieve_from_documents envIso exQuestionPlain
      [1, 2]).chunks_by_doc 1 =
      dictGet (retrieve_from_documents { envIso with search := searchFixed }
        exQuestionPlain [1, 2]).chunks_by_doc 1 := by
  have h := retrieval_failure_isolated envIso searchFixed exQuestionPlain [1, 2] 2
    "boom".data rfl
    (fun d hd => by unfold searchFixed; rw [if_neg hd])
    (fun f hf => absurd hf (List.not_mem_nil f))
  exact ⟨h.1, h.2 1 (by decide)⟩
